import Mathlib

/-!
Verification of the Golib repository: a shallow embedding in Lean 4 of the
move/coordinate model (`golib/model/move.py`), the rules/capture engine
(`golib/model/rules.py`), the SGF scanner (`go/sgf.py`, `Parser.parse`) and
the game-record operations (`golib/model/kifu.py`, with node behaviour from
`golib/model/sgf_ck.py`), together with theorems settling the frozen claims
about this code.

Modelling conventions:
* Python `int` becomes `Int` (pass moves genuinely carry coordinate `-52`,
  the value of `ord('-') - 97`).
* Python exceptions split in two: `StateError` raised through
  `RuleUnsafe.raisese` (which resets the buffers first) is modelled as an
  explicit error value carrying the reset state, while interpreter-level
  failures (failed `assert`, `IndexError`, `TypeError`, missing attribute)
  are modelled as a `stuck` error: no claim's domain reaches them.
* Python objects aliased between the committed and buffered history
  (`list(self.history)` is a shallow copy) are modelled with an explicit
  store: `history` and `history_buff` hold indices into `store`, so an
  in-place mutation of a shared `Move` object is visible from both lists
  exactly as in the source.
* The recursive flood fill `RuleUnsafe._data` gets an explicit fuel
  argument; fuel `gsize * gsize + 1 = 362` is proved sufficient for every
  in-bounds seed, so the fuelled function agrees with the unbounded Python
  recursion on the whole relevant domain.
-/

namespace Golib

/-- Stone colors, `golib_conf.B / W / E` (`'B'`, `'W'`, `'E'` in the source). -/
inductive Color
  | B
  | W
  | E
deriving DecidableEq

/-- `gsize` from `golib/config/golib_conf.py`. -/
def gsize : Int := 19

/-- `Move` from `golib/model/move.py`: color, internal coordinates, number. -/
structure Move where
  color : Color
  x : Int
  y : Int
  number : Int
deriving DecidableEq

/-- `Move.__eq__`: equality by color and position, the number is ignored. -/
def moveEq (m o : Move) : Bool :=
  decide (m.color = o.color) && decide (m.x = o.x) && decide (m.y = o.y)

/-- A dynamically typed coordinate component handed to `Move._interpret` /
returned by `Move.get_coord`: either a Python `int` or a one-character
string. -/
inductive CVal
  | i (n : Int)
  | c (ch : Char)
deriving DecidableEq

/-- Python `int(a)` on a coordinate component: identity on ints, digit
conversion on one-character strings, `ValueError` (= `none`) otherwise. -/
def pyInt : CVal → Option Int
  | .i n => some n
  | .c ch => if ch.isDigit then some ((ch.toNat : Int) - 48) else none

/-- Python `ord(a)`: defined on one-character strings only
(`TypeError` = `none` on ints). -/
def pyOrd : CVal → Option Nat
  | .c ch => some ch.toNat
  | .i _ => none

/-- Python `chr(n)` for the small non-negative code points the source uses. -/
def pyChr (n : Int) : Char :=
  Char.ofNat n.toNat

/-- `Move._interpret(ctype, color, a, b)`: compute the internal `(x, y)`
coordinates from a coordinate pair in the frame `ctype`.  `none` models the
`TypeError` raised on an unrecognized frame name or ill-typed components. -/
def interpretMove (ctype : String) (color : Color) (a b : CVal) :
    Option (Color × Int × Int) :=
  if ctype = "tk" then
    match pyInt a, pyInt b with
    | some xa, some yb => some (color, xa, yb)
    | _, _ => none
  else if ctype = "sgf" then
    match pyOrd a, pyOrd b with
    | some oa, some ob => some (color, (oa : Int) - 97, (ob : Int) - 97)
    | _, _ => none
  else if ctype = "np" then
    match a, b with
    | .i av, .i bv => some (color, bv, av)
    | _, _ => none
  else if ctype = "kgs" then
    match pyOrd a, pyInt b with
    | some oa, some nb =>
        some (color, (oa : Int) - (if (oa : Int) < 73 then 65 else 66), gsize - nb)
    | _, _ => none
  else none

/-- `Move.get_coord(ctype)`: the coordinates of this move in frame `ctype`
(`none` models Python's implicit `None` on an unknown frame). -/
def Move.get_coord (m : Move) (ctype : String) : Option (CVal × CVal) :=
  if ctype = "tk" then some (.i m.x, .i m.y)
  else if ctype = "sgf" then some (.c (pyChr (m.x + 97)), .c (pyChr (m.y + 97)))
  else if ctype = "np" then some (.i m.y, .i m.x)
  else if ctype = "kgs" then
    some (.c (pyChr (m.x + (if m.x < 8 then 65 else 66))), .i (gsize - m.y))
  else none

/-- `Move.copy()`: rebuilds the move through the `"tk"` frame, which is the
identity on its integer fields. -/
def copyMove (m : Move) : Move :=
  { color := m.color, x := m.x, y := m.y, number := m.number }

/-! ## The SGF scanner (`go/sgf.py`, `Parser.parse`)

The scanner is modelled as a step function over an explicit scanner state
(`state` number plus the `prop_ident` / `prop_value` accumulators), emitting
the callback events (`start_gametree`, `start_node`, ...) the Python code
fires on the registered tree-builder.  The tree builder itself is not
modelled; the event list is the observable output of the scan. -/

/-- A scanner callback event. -/
inductive Ev
  | startGT
  | endGT
  | startNode
  | endNode
  | startProp (ident : List Char)
  | addVal (v : List Char)
  | endProp
deriving DecidableEq

/-- `ParseException`: either `(ch, state)` on an unrecognized character, or
`(state)` when the stream ends outside state 4. -/
inductive PErr
  | unrec (ch : Char) (state : Nat)
  | eos (state : Nat)
deriving DecidableEq

/-- Scanner state: the `state` variable plus the two accumulator locals. -/
structure ScanSt where
  q : Nat
  ident : List Char
  val : List Char
deriving DecidableEq

/-- `whitespace(char)`. -/
def wsC (ch : Char) : Bool :=
  ch = ' ' || ch = '\t' || ch = '\r' || ch = '\n'

/-- `ucletter(char)`. -/
def ucC (ch : Char) : Bool :=
  decide (65 ≤ ch.toNat) && decide (ch.toNat ≤ 90)

/-- `lcletter(char)`. -/
def lcC (ch : Char) : Bool :=
  decide (97 ≤ ch.toNat) && decide (ch.toNat ≤ 122)

/-- One iteration of the `for ch in sgf_string` loop of `Parser.parse`:
either the next scanner state together with the events fired on this
character, or a `ParseException`. -/
def scanStep (st : ScanSt) (ch : Char) : Except PErr (ScanSt × List Ev) :=
  if st.q = 0 then
    if wsC ch then .ok ({ st with q := 0 }, [])
    else if ch = '(' then .ok ({ st with q := 1 }, [.startGT])
    else .ok ({ st with q := 0 }, [])
  else if st.q = 1 then
    if wsC ch then .ok ({ st with q := 1 }, [])
    else if ch = ';' then .ok ({ st with q := 2 }, [.startNode])
    else .error (.unrec ch 1)
  else if st.q = 2 then
    if wsC ch then .ok ({ st with q := 2 }, [])
    else if ucC ch then .ok ({ st with q := 3, ident := [ch] }, [])
    else if ch = ';' then .ok ({ st with q := 2 }, [.endNode, .startNode])
    else if ch = '(' then .ok ({ st with q := 1 }, [.endNode, .startGT])
    else if ch = ')' then .ok ({ st with q := 4 }, [.endNode, .endGT])
    else .error (.unrec ch 2)
  else if st.q = 3 then
    if ucC ch then .ok ({ st with q := 3, ident := st.ident ++ [ch] }, [])
    else if lcC ch then .ok ({ st with q := 3 }, [])
    else if ch = '[' then .ok ({ st with q := 5, val := [] }, [.startProp st.ident])
    else .error (.unrec ch 3)
  else if st.q = 4 then
    if ch = ')' then .ok ({ st with q := 4 }, [.endGT])
    else if wsC ch then .ok ({ st with q := 4 }, [])
    else if ch = '(' then .ok ({ st with q := 1 }, [.startGT])
    else .error (.unrec ch 4)
  else if st.q = 5 then
    if ch = '\\' then .ok ({ st with q := 6 }, [])
    else if ch = ']' then .ok ({ st with q := 7 }, [.addVal st.val])
    else .ok ({ st with q := 5, val := st.val ++ [ch] }, [])
  else if st.q = 6 then
    .ok ({ st with q := 5, val := st.val ++ [ch] }, [])
  else if st.q = 7 then
    if wsC ch then .ok ({ st with q := 7 }, [])
    else if ch = '[' then .ok ({ st with q := 5, val := [] }, [])
    else if ch = ';' then .ok ({ st with q := 2 }, [.endProp, .endNode, .startNode])
    else if ucC ch then .ok ({ st with q := 3, ident := [ch] }, [.endProp])
    else if ch = ')' then .ok ({ st with q := 4 }, [.endProp, .endNode, .endGT])
    else if ch = '(' then .ok ({ st with q := 1 }, [.endProp, .endNode, .startGT])
    else .error (.unrec ch 7)
  else .error (.unrec ch st.q)

/-- The character loop of `Parser.parse`, accumulating the fired events. -/
def scanRun (st : ScanSt) : List Char → Except PErr (ScanSt × List Ev)
  | [] => .ok (st, [])
  | ch :: rest =>
    match scanStep st ch with
    | .error e => .error e
    | .ok (st1, evs) =>
      match scanRun st1 rest with
      | .error e => .error e
      | .ok (st2, evs2) => .ok (st2, evs ++ evs2)

/-- The initial scanner state of `Parser.parse`. -/
def scanInit : ScanSt :=
  { q := 0, ident := [], val := [] }

/-- `Parser.parse(sgf_string)`: run the scanner over the whole character
stream, then raise `ParseException(state)` unless the final state is 4. -/
def parseSgf (cs : List Char) : Except PErr (List Ev) :=
  match scanRun scanInit cs with
  | .error e => .error e
  | .ok (st, evs) => if st.q = 4 then .ok evs else .error (.eos st.q)

/-- The characters that are *not* recognized in scanner state `q`: feeding
such a character to the scanner in that state is exactly what reaches a
`raise ParseException(ch, state)` line in `Parser.parse`.  In states 0, 5
and 6 every character is consumed. -/
def unrecIn (q : Nat) (ch : Char) : Bool :=
  if q = 0 then false
  else if q = 1 then !wsC ch && !(ch = ';')
  else if q = 2 then !wsC ch && !ucC ch && !(ch = ';') && !(ch = '(') && !(ch = ')')
  else if q = 3 then !ucC ch && !lcC ch && !(ch = '[')
  else if q = 4 then !(ch = ')') && !wsC ch && !(ch = '(')
  else if q = 5 then false
  else if q = 6 then false
  else if q = 7 then
    !wsC ch && !(ch = '[') && !(ch = ';') && !ucC ch && !(ch = ')') && !(ch = '(')
  else true

/-! ## The rules/capture engine (`golib/model/rules.py`)

`RuleUnsafe` holds a committed state and a buffered state.  `reset()` copies
the committed state into the buffer; the grid copy (`copystones`) is a
per-row copy, faithfully modelled by a value copy, but
`list(self.history)` is a *shallow* copy: the `Move` objects are shared
between `history` and `history_buff`.  To keep that aliasing observable,
moves in the histories live in an explicit `store` and the two history
lists hold indices into it. -/

/-- The board grid, a `gsize × gsize` matrix of colors. -/
abbrev Grid := List (List Color)

/-- The empty starting grid built by `RuleUnsafe.__init__`. -/
def emptyGrid : Grid :=
  List.replicate 19 (List.replicate 19 .E)

/-- `stones_buff[x][y]`: reads outside `[0, gsize)` do not occur on the
claims' domains; the model totalizes them to `E`. -/
def gridGet (g : Grid) (x y : Int) : Color :=
  if 0 ≤ x ∧ x < 19 ∧ 0 ≤ y ∧ y < 19 then (g.getD x.toNat []).getD y.toNat .E
  else .E

/-- `stones_buff[x][y] = c`; out-of-range writes do not occur on the claims'
domains and are totalized to a no-op. -/
def gridSet (g : Grid) (x y : Int) (c : Color) : Grid :=
  if 0 ≤ x ∧ x < 19 ∧ 0 ≤ y ∧ y < 19 then
    g.set x.toNat ((g.getD x.toNat []).set y.toNat c)
  else g

/-- `touch(x, y)`: the up-to-4 orthogonal neighbours inside the board. -/
def touchL (x y : Int) : List (Int × Int) :=
  ([(-1, 0), (1, 0), (0, 1), (0, -1)] : List (Int × Int)).filterMap fun d =>
    let row := x + d.1
    if 0 ≤ row ∧ row < gsize then
      let col := y + d.2
      if 0 ≤ col ∧ col < gsize then some (row, col) else none
    else none

/-- `enemy_of(color)`; `none` models the `ValueError` on `E`. -/
def enemyOf : Color → Option Color
  | .B => some .W
  | .W => some .B
  | .E => none

/-- Accumulator of `RuleUnsafe._data`: the `_group` and `_libs` lists. -/
abbrev GrpLibs := List (Int × Int) × List (Int × Int)

/-- The `for x, y in touch(x, y)` loop body of `RuleUnsafe._data`: empty
neighbours extend `_libs`, same-colored neighbours recurse through `next`
(the recursive `_data` call one fuel level down). -/
def dataFold (g : Grid) (color : Color) (next : Int → Int → GrpLibs → Option GrpLibs) :
    List (Int × Int) → GrpLibs → Option GrpLibs
  | [], st => some st
  | p :: rest, st =>
    if gridGet g p.1 p.2 = .E then
      dataFold g color next rest (st.1, if p ∈ st.2 then st.2 else st.2 ++ [p])
    else if gridGet g p.1 p.2 = color then
      match next p.1 p.2 st with
      | none => none
      | some st1 => dataFold g color next rest st1
    else dataFold g color next rest st

/-- `RuleUnsafe._data(x, y, _group, _libs)` with explicit recursion fuel;
`none` is fuel exhaustion, proved unreachable at fuel `362` for in-bounds
seeds (`data_terminates`). -/
def dataAux (g : Grid) : Nat → Int → Int → GrpLibs → Option GrpLibs
  | 0, _, _, _ => none
  | fuel + 1, x, y, st =>
    if (x, y) ∈ st.1 then some st
    else dataFold g (gridGet g x y) (dataAux g fuel) (touchL x y) (st.1 ++ [(x, y)], st.2)

/-- Sufficient fuel: `gsize * gsize + 1`. -/
def dataFuel : Nat := 362

/-- The top-level `_data(x, y)` call: asserts the seed cell is non-empty,
then returns the group and its liberty count. -/
def dataF (g : Grid) (x y : Int) : Option (List (Int × Int) × Nat) :=
  if gridGet g x y = .E then none
  else (dataAux g dataFuel x y ([], [])).map fun st => (st.1, st.2.length)

/-- The capture loop of `RuleUnsafe._append` (the `for row, col in
touch(...)` scan): each enemy-colored neighbour's group is flood-filled
and, at zero liberties, removed from the grid and appended to this move's
capture entry; `safe` records that at least one enemy stone was killed. -/
def killScan (enem : Color) : List (Int × Int) → Grid → List Move → Bool →
    Option (Grid × List Move × Bool)
  | [], g, dele, safe => some (g, dele, safe)
  | p :: rest, g, dele, safe =>
    if gridGet g p.1 p.2 = enem then
      match dataF g p.1 p.2 with
      | none => none
      | some (group, nblibs) =>
        if nblibs = 0 then
          killScan enem rest
            (group.foldl (fun gg q => gridSet gg q.1 q.2 .E) g)
            (dele ++ group.map fun q => { color := enem, x := q.1, y := q.2, number := -1 })
            true
        else killScan enem rest g dele safe
    else killScan enem rest g dele safe

/-- The Ko test of `RuleUnsafe._append`, applied to the capture history
*after* this move's entry was appended: more than 3 entries, the last entry
is a single stone, the entry before it is a single stone equal (color and
position) to the move just played. -/
def koCheck (db1 : List (List Move)) (m : Move) : Bool :=
  if 3 < db1.length then
    if (db1.getLastD []).length = 1 then
      match db1.getD (db1.length - 2) [] with
      | [p] => moveEq m p
      | _ => false
    else false
  else false

/-- `move.get_coord("sgf") != ('-', '-')`: the non-pass test of `_append`
and `_pop`. -/
def nonPass (m : Move) : Bool :=
  decide (m.get_coord "sgf" ≠ some (.c '-', .c '-'))

/-- Failures of the engine: `state msg` is a `StateError` raised through
`raisese` (buffers already reset), `stuck msg` is an interpreter-level
crash (failed `assert`, `IndexError`, ...) outside every claim's domain. -/
inductive GoErr
  | state (msg : String)
  | stuck (msg : String)
deriving DecidableEq

/-- The engine state with the buffer unwrapped (all internal helpers of
`RuleUnsafe` run with initialized buffers).  `history` / `hb` hold indices
into `store`, mirroring Python's object sharing between the two lists. -/
structure CState where
  store : List Move
  stones : Grid
  deleted : List (List Move)
  history : List Nat
  sb : Grid
  db : List (List Move)
  hb : List Nat
deriving DecidableEq

/-- `RuleUnsafe.reset()` on the unwrapped state. -/
def resetC (c : CState) : CState :=
  { c with sb := c.stones, db := c.deleted, hb := c.history }

/-- `RuleUnsafe.raisese(message)`: reset the buffers, then raise. -/
def raiseC (msg : String) (c : CState) : Except (GoErr × CState) CState :=
  .error (.state msg, resetC c)

/-- `RuleUnsafe._append(move)`. -/
def appendC (m : Move) (c : CState) : Except (GoErr × CState) CState :=
  if nonPass m then
    if m.color = .B ∨ m.color = .W then
      if gridGet c.sb m.x m.y = .E then
        match enemyOf m.color with
        | none => .error (.stuck "enemy_of", c)
        | some enem =>
          let sb1 := gridSet c.sb m.x m.y m.color
          match killScan enem (touchL m.x m.y) sb1 [] false with
          | none => .error (.stuck "recursion", c)
          | some (sb2, dele, safe) =>
            let db1 := c.db ++ [dele]
            let c1 := { c with sb := sb2, db := db1 }
            if koCheck db1 m then raiseC "Ko" c1
            else if safe then .ok c1
            else
              match dataF sb2 m.x m.y with
              | none => .error (.stuck "recursion", c1)
              | some (_, nblibs) =>
                if nblibs = 0 then raiseC "Suicide" c1 else .ok c1
      else raiseC "Occupied" c
    else .error (.stuck "assert color", c)
  else .ok { c with db := c.db ++ [[]] }

/-- `RuleUnsafe._pop(move)`. -/
def popC (m : Move) (c : CState) : Except (GoErr × CState) CState :=
  if nonPass m then
    if gridGet c.sb m.x m.y = m.color then
      let sb1 := gridSet c.sb m.x m.y .E
      match c.db.getLast? with
      | none => .error (.stuck "pop from empty list", { c with sb := sb1 })
      | some captured =>
        .ok { c with
              sb := captured.foldl (fun gg mv => gridSet gg mv.x mv.y mv.color) sb1,
              db := c.db.dropLast }
    else raiseC (if gridGet c.sb m.x m.y = .E then "Empty" else "Wrong Color.") c
  else
    match c.db.getLast? with
    | none => .error (.stuck "pop from empty list", c)
    | some _ => .ok { c with db := c.db.dropLast }

/-- `RuleUnsafe._rewind_to(move)`: pop from the tail while
`move.number <= len(deleted_buff)`; `k` counts the iterations so the
Python index `-1 - k` into the (unchanged) history buffer is explicit.
The fuel is called with `len(deleted_buff) + 1`, enough because every
successful `_pop` shortens `deleted_buff` by one. -/
def rewindC (m : Move) : Nat → Nat → CState → Except (GoErr × CState) CState
  | 0, _, c => .error (.stuck "fuel", c)
  | fuel + 1, k, c =>
    if m.number ≤ (c.db.length : Int) then
      if k < c.hb.length then
        match c.store[c.hb.getD (c.hb.length - 1 - k) 0]? with
        | none => .error (.stuck "bad ref", c)
        | some mv =>
          match popC mv c with
          | .error e => .error e
          | .ok c1 => rewindC m fuel (k + 1) c1
      else .error (.stuck "IndexError", c)
    else .ok c

/-- `self.history_buff[i].number += d`: in-place mutation of the shared
`Move` object referenced by `r`. -/
def bumpRef (d : Int) (c : CState) (r : Nat) : CState :=
  match c.store[r]? with
  | some mv => { c with store := c.store.set r { mv with number := mv.number + d } }
  | none => c

/-- `RuleUnsafe._forward_from`: re-apply the given history suffix. -/
def forwardC : List Nat → CState → Except (GoErr × CState) CState
  | [], c => .ok c
  | r :: rest, c =>
    match c.store[r]? with
    | none => .error (.stuck "bad ref", c)
    | some mv =>
      match appendC mv c with
      | .error e => .error e
      | .ok c1 => forwardC rest c1

/-- The body of `RuleUnsafe.put` after the reset (tail append, or
rewind / splice / renumber / replay).  `history_buff.insert` clamps the
index to the list length exactly as Python's `list.insert`. -/
def putC (m : Move) (c : CState) : Except (GoErr × CState) CState :=
  if m.number = (c.hb.length : Int) then
    match appendC m c with
    | .error e => .error e
    | .ok c1 =>
      .ok { c1 with store := c1.store ++ [copyMove m], hb := c1.hb ++ [c1.store.length] }
  else
    match rewindC m (c.db.length + 1) 0 c with
    | .error e => .error e
    | .ok c1 =>
      let idx := (m.number - 1).toNat
      let c2 := { c1 with store := c1.store ++ [copyMove m],
                          hb := c1.hb.take idx ++ [c1.store.length] ++ c1.hb.drop idx }
      let c3 := (c2.hb.drop m.number.toNat).foldl (bumpRef 1) c2
      forwardC (c3.hb.drop idx) c3

/-- The body of `RuleUnsafe.remove` after the reset. -/
def removeC (m : Move) (c : CState) : Except (GoErr × CState) CState :=
  if m.number = (c.hb.length : Int) then
    match popC m c with
    | .error e => .error e
    | .ok c1 => .ok { c1 with hb := c1.hb.dropLast }
  else
    match rewindC m (c.db.length + 1) 0 c with
    | .error e => .error e
    | .ok c1 =>
      let idx := (m.number - 1).toNat
      if idx < c1.hb.length then
        let c2 := { c1 with hb := c1.hb.eraseIdx idx }
        let c3 := (c2.hb.drop idx).foldl (bumpRef (-1)) c2
        forwardC (c3.hb.drop idx) c3
      else .error (.stuck "IndexError", c1)

/-- The buffered state (`stones_buff`, `deleted_buff`, `history_buff`). -/
structure BufSt where
  sb : Grid
  db : List (List Move)
  hb : List Nat
deriving DecidableEq

/-- The full `RuleUnsafe` object.  `buff = none` is the transient
`stones_buff is None` state that only exists inside `__init__` before its
final `reset()`.  `notified` logs every `listener.stones_changed(grid)`
call; `hasListener` is `listener is not None`. -/
structure RState where
  store : List Move
  stones : Grid
  deleted : List (List Move)
  history : List Nat
  buff : Option BufSt
  notified : List Grid
  hasListener : Bool
deriving DecidableEq

/-- `RuleUnsafe.reset()`. -/
def resetS (s : RState) : RState :=
  { s with buff := some ⟨s.stones, s.deleted, s.history⟩ }

/-- `RuleUnsafe.__init__(listener)`: empty committed state, then `reset()`. -/
def initEngine (hasL : Bool) : RState :=
  resetS { store := [], stones := emptyGrid, deleted := [], history := [], buff := none,
           notified := [], hasListener := hasL }

/-- Unwrap the buffer into a `CState`. -/
def toC (s : RState) (b : BufSt) : CState :=
  { store := s.store, stones := s.stones, deleted := s.deleted, history := s.history,
    sb := b.sb, db := b.db, hb := b.hb }

/-- Fold a `CState` back into the object. -/
def fromC (s : RState) (c : CState) : RState :=
  { s with store := c.store, stones := c.stones, deleted := c.deleted, history := c.history,
           buff := some ⟨c.sb, c.db, c.hb⟩ }

/-- Lift a core-state result to the object level. -/
def liftC (s : RState) : Except (GoErr × CState) CState → Except (GoErr × RState) RState
  | .ok c => .ok (fromC s c)
  | .error (e, c) => .error (e, fromC s c)

/-- `RuleUnsafe.put(move, reset=True)`. -/
def put (m : Move) (rst : Bool) (s : RState) : Except (GoErr × RState) RState :=
  if 0 < m.number then
    let s1 := if rst then resetS s else s
    match s1.buff with
    | none => .error (.stuck "NoneType", s1)
    | some b => liftC s1 (putC m (toC s1 b))
  else .error (.stuck "assert number", s)

/-- `RuleUnsafe.remove(move, reset=True)`. -/
def removeMv (m : Move) (rst : Bool) (s : RState) : Except (GoErr × RState) RState :=
  if 0 < m.number then
    if m.color = .E then .error (.stuck "assert color", s)
    else
      let s1 := if rst then resetS s else s
      match s1.buff with
      | none => .error (.stuck "NoneType", s1)
      | some b => liftC s1 (removeC m (toC s1 b))
  else .error (.stuck "assert number", s)

/-- `RuleUnsafe.confirm()`: promote the buffer if it exists and notify the
listener with the new grid, else `raisese("Confirmation Denied")`. -/
def confirm (s : RState) : Except (GoErr × RState) RState :=
  match s.buff with
  | some b =>
    .ok { s with stones := b.sb, deleted := b.db, history := b.hb,
                 notified := if s.hasListener then s.notified ++ [b.sb] else s.notified }
  | none => .error (.state "Confirmation Denied", resetS s)

/-- `RuleUnsafe.clear()`: re-run `__init__` with the same listener. -/
def clearEngine (s : RState) : RState :=
  initEngine s.hasListener

/-! ## Game record (`golib/model/kifu.py`, node behaviour `sgf_ck.NodeGl`) -/

/-- A property value: the `MN` tag is stored as a one-int list
(`my_end_property` / `number()`), every other tag as a list of strings. -/
inductive PropVal
  | vints (l : List Int)
  | vstrs (l : List (List Char))
deriving DecidableEq

/-- The `properties` dict of a node: an insertion-ordered association
list with unique keys. -/
abbrev Props := List (String × PropVal)

/-- `properties[k]` lookup (`none` = `KeyError`). -/
def propGet (ps : Props) (k : String) : Option PropVal :=
  (ps.find? fun kv => kv.1 == k).map fun kv => kv.2

/-- `properties[k] = v`: overwrite the existing entry, else append. -/
def propSet (ps : Props) (k : String) (v : PropVal) : Props :=
  if ps.any fun kv => kv.1 == k then
    ps.map fun kv => if kv.1 == k then (k, v) else kv
  else ps ++ [(k, v)]

/-- An SGF node (`NodeGl`): only the property dict matters to the
move-numbering operations under verification. -/
structure NodeGl where
  props : Props
deriving DecidableEq

/-- Record-level failures: `sgfW` is the `SgfWarning` raised by
`getmove` on setup properties, `stuck` an interpreter-level crash
(`KeyError` / `IndexError` / `TypeError`) outside every claim's domain. -/
inductive KErr
  | sgfW
  | stuck
deriving DecidableEq

/-- The property key used for a move of the given color. -/
def colorKey : Color → String
  | .B => "B"
  | .W => "W"
  | .E => "E"

/-- The move-number part of `NodeGl.getmove`: `properties["MN"][0]`, the
`KeyError` caught (defaulting to -1). -/
def mnNumber (ps : Props) : Except KErr Int :=
  match propGet ps "MN" with
  | none => .ok (-1)
  | some (.vints (n :: _)) => .ok n
  | some _ => .error .stuck

/-- The color/position part of `NodeGl.getmove`: try `properties['B'][0]`
then `properties['W'][0]` (`KeyError` caught); if neither is present,
raise `SgfWarning` when a setup property (`AW`/`BW`/`EW`) exists, else no
move. -/
def colorPos (ps : Props) : Except KErr (Option (Color × List Char)) :=
  match propGet ps "B" with
  | some (.vstrs (p :: _)) => .ok (some (.B, p))
  | some _ => .error .stuck
  | none =>
    match propGet ps "W" with
    | some (.vstrs (p :: _)) => .ok (some (.W, p))
    | some _ => .error .stuck
    | none =>
      if (propGet ps "AW").isSome || (propGet ps "BW").isSome
          || (propGet ps "EW").isSome then .error .sgfW
      else .ok none

/-- `NodeGl.getmove()`: derive the `Move` of this node, if any.  An empty
position value stands for a pass and is replaced by `'--'`; the `Move` is
then built through the `"sgf"` frame. -/
def getmove (n : NodeGl) : Except KErr (Option Move) :=
  match mnNumber n.props with
  | .error e => .error e
  | .ok number =>
    match colorPos n.props with
    | .error e => .error e
    | .ok none => .ok none
    | .ok (some (color, pos)) =>
      match (if pos.length = 0 then ['-', '-'] else pos) with
      | c1 :: c2 :: _ =>
        .ok (some { color := color, x := (c1.toNat : Int) - 97,
                    y := (c2.toNat : Int) - 97, number := number })
      | _ => .error .stuck

/-- `NodeGl.number(nb)` with `0 <= nb`: force `MN` to `[nb]`. -/
def numberForce (n : NodeGl) (nb : Int) : NodeGl :=
  ⟨propSet n.props "MN" (.vints [nb])⟩

/-- The game record: the linear node list of the single game tree plus the
modified flag. -/
structure Kifu where
  nodes : List NodeGl
  modified : Bool
deriving DecidableEq

/-- `Kifu._prepare(move)` for a fresh node: `NodeGl(game, self[-1])`
(crashing on an empty record), the color property set to the SGF
coordinate pair, then `number(move.number)`.  With `move.number < 0` the
number is computed: previous node's `MN[0]` (`KeyError` uncaught),
incremented when the new node carries a move (a `SgfWarning` from
`getmove` is caught and skips the increment). -/
def prepareNew (nodes : List NodeGl) (m : Move) : Except KErr NodeGl :=
  match nodes.getLast? with
  | none => .error .stuck
  | some prev =>
    let a := pyChr (m.x + 97)
    let b := pyChr (m.y + 97)
    let props0 : Props := [(colorKey m.color, .vstrs [[a, b]])]
    if 0 ≤ m.number then .ok ⟨propSet props0 "MN" (.vints [m.number])⟩
    else
      match propGet prev.props "MN" with
      | some (.vints (k :: _)) =>
        match getmove ⟨props0⟩ with
        | .ok (some _) => .ok ⟨propSet props0 "MN" (.vints [k + 1])⟩
        | .ok none => .ok ⟨propSet props0 "MN" (.vints [k])⟩
        | .error .sgfW => .ok ⟨propSet props0 "MN" (.vints [k])⟩
        | .error .stuck => .error .stuck
      | some _ => .error .stuck
      | none => .error .stuck

/-- The renumbering scan of `Kifu.insert`: bump the `MN` head of every
node whose number is at least `position` (`KeyError` caught and skipped),
remembering the (last) index whose old number equals `position`. -/
def insLoop (position : Int) : List NodeGl → Nat → Except KErr (List NodeGl × Option Nat)
  | [], _ => .ok ([], none)
  | n :: rest, i =>
    match propGet n.props "MN" with
    | none =>
      match insLoop position rest (i + 1) with
      | .error e => .error e
      | .ok (l, idx) => .ok (n :: l, idx)
    | some (.vints (nb :: tl)) =>
      let n1 := if position ≤ nb then NodeGl.mk (propSet n.props "MN" (.vints ((nb + 1) :: tl)))
                else n
      let here := if nb = position then some i else none
      match insLoop position rest (i + 1) with
      | .error e => .error e
      | .ok (l, idx) => .ok (n1 :: l, idx.or here)
    | some _ => .error .stuck

/-- `Kifu.insert(move, position)`. -/
def insertK (kf : Kifu) (m : Move) (position : Int) : Except KErr Kifu :=
  match prepareNew kf.nodes m with
  | .error e => .error e
  | .ok nn0 =>
    let nn := if 0 ≤ position then numberForce nn0 position else nn0
    match insLoop position kf.nodes 0 with
    | .error e => .error e
    | .ok (l, idx) =>
      match idx with
      | some i => .ok { nodes := l.take i ++ [nn] ++ l.drop i, modified := true }
      | none =>
        match kf.nodes with
        | [] => .error .stuck
        | _ =>
          if (kf.nodes.length : Int) - 1 = position - 1 then
            .ok { nodes := l ++ [nn], modified := true }
          else .ok { nodes := l, modified := true }

/-- The scan of `Kifu.delete`: before the match, look for the first node
whose derived move number equals `target` (an `AttributeError` from
`.number` on a non-move node is caught and skips it; any `getmove`
exception propagates); after the match, decrement every later node's
`MN` head (`KeyError` now uncaught). -/
def delLoop (target : Int) : List NodeGl → Nat → Bool → Except KErr (List NodeGl × Option Nat)
  | [], _, _ => .ok ([], none)
  | n :: rest, i, decr =>
    if decr then
      match propGet n.props "MN" with
      | some (.vints (nb :: tl)) =>
        match delLoop target rest (i + 1) true with
        | .error e => .error e
        | .ok (l, ix) =>
          .ok (NodeGl.mk (propSet n.props "MN" (.vints ((nb - 1) :: tl))) :: l, ix)
      | some _ => .error .stuck
      | none => .error .stuck
    else
      match getmove n with
      | .error e => .error e
      | .ok none =>
        match delLoop target rest (i + 1) false with
        | .error e => .error e
        | .ok (l, ix) => .ok (n :: l, ix)
      | .ok (some mv) =>
        if mv.number = target then
          match delLoop target rest (i + 1) true with
          | .error e => .error e
          | .ok (l, _) => .ok (n :: l, some i)
        else
          match delLoop target rest (i + 1) false with
          | .error e => .error e
          | .ok (l, ix) => .ok (n :: l, ix)

/-- `Kifu.delete(move)`: scan, then `nodes.remove(torem)` (removal by
object identity, i.e. exactly the matched index) and set the modified
flag only if a node was matched. -/
def deleteK (kf : Kifu) (m : Move) : Except KErr Kifu :=
  match delLoop m.number kf.nodes 0 false with
  | .error e => .error e
  | .ok (l, some i) => .ok { nodes := l.eraseIdx i, modified := true }
  | .ok (l, none) => .ok { nodes := l, modified := kf.modified }

/-- The context node built by `Kifu._new()`: board size, comment, and the
`MN = [0]` entry added by `context.number()`. -/
def rootNode : NodeGl :=
  ⟨[("SZ", .vints [19]),
    ("C", .vstrs ["Recorded with Golib.".toList]),
    ("MN", .vints [0])]⟩

/-- A fresh record (`Kifu()` without a file). -/
def newKifu : Kifu :=
  { nodes := [rootNode], modified := false }

/-- Add `d` to the head of a node's `MN` value (the effect of one pass of
the renumbering loops of `insert` / `delete` on a node it touches). -/
def bumpMN (d : Int) (n : NodeGl) : NodeGl :=
  match propGet n.props "MN" with
  | some (.vints (x :: tl)) => ⟨propSet n.props "MN" (.vints ((x + d) :: tl))⟩
  | _ => n

/-- The node `Kifu.insert` splices in: `_prepare`'s fresh node (color
property set to the SGF coordinate pair) with `MN` forced to `position`
by the `node.number(position)` call on the non-negative position. -/
def insertedNode (m : Move) (k : Int) : NodeGl :=
  ⟨propSet [(colorKey m.color, .vstrs [[pyChr (m.x + 97), pyChr (m.y + 97)]])]
    "MN" (.vints [k])⟩

/-- A well-formed linear move sequence: consecutive nodes carry `MN = [j]`,
`MN = [j+1]`, ... and each derives a move with that number.  This is the
shape `Kifu.append` produces for the N-move sequence numbered `1..N` of
the round-trip claim. -/
inductive MoveChain : Int → List NodeGl → Prop
  | nil (j : Int) : MoveChain j []
  | cons (j : Int) (node : NodeGl) (rest : List NodeGl)
      (hkeys : (node.props.map fun kv => kv.1).Nodup)
      (hmn : propGet node.props "MN" = some (.vints [j]))
      (hmv : ∃ mv, getmove node = .ok (some mv) ∧ mv.number = j)
      (hrest : MoveChain (j + 1) rest) : MoveChain j (node :: rest)

/-! ## Concrete scenario states used by the witnesses and counterexamples -/

/-- Build a grid from a stone list. -/
def gridOf (stones : List (Color × Int × Int)) : Grid :=
  stones.foldl (fun g s => gridSet g s.2.1 s.2.2 s.1) emptyGrid

/-- A committed, clean engine state from a played-out history: the store
holds the history moves, `deleted` the capture log, the buffers mirror the
committed state (as after `reset()` / `confirm()`). -/
def cleanState (st : List Move) (g : Grid) (dl : List (List Move)) : RState :=
  { store := st, stones := g, deleted := dl, history := List.range st.length,
    buff := some ⟨g, dl, List.range st.length⟩, notified := [], hasListener := false }

/-- Ko scenario, position after move 5: White stones at (1,1) and (0,2),
Black stones at (1,0) and (0,1); Black's move 5 at (0,1) captured the
single White stone at (0,0). -/
def sKo : RState :=
  cleanState
    [⟨.W, 1, 1, 1⟩, ⟨.W, 0, 2, 2⟩, ⟨.W, 0, 0, 3⟩, ⟨.B, 1, 0, 4⟩, ⟨.B, 0, 1, 5⟩]
    (gridOf [(.W, 1, 1), (.W, 0, 2), (.B, 1, 0), (.B, 0, 1)])
    [[], [], [], [], [⟨.W, 0, 0, -1⟩]]

/-- The immediate recapture at (0,0) that the Ko rule must reject. -/
def mKo : Move := ⟨.W, 0, 0, 6⟩

/-- Ko scenario two plies later: after the intervening move 6 elsewhere
(Black at (5,5), capturing nothing) was committed. -/
def sKo2 : RState :=
  cleanState
    [⟨.W, 1, 1, 1⟩, ⟨.W, 0, 2, 2⟩, ⟨.W, 0, 0, 3⟩, ⟨.B, 1, 0, 4⟩, ⟨.B, 0, 1, 5⟩,
     ⟨.B, 5, 5, 6⟩]
    (gridOf [(.W, 1, 1), (.W, 0, 2), (.B, 1, 0), (.B, 0, 1), (.B, 5, 5)])
    [[], [], [], [], [⟨.W, 0, 0, -1⟩], []]

/-- The same recapture, now legal. -/
def mKo2 : Move := ⟨.W, 0, 0, 7⟩

/-- Occupied-cell scenario: five committed Black moves; (1,1) is occupied
by move 5. -/
def sC2 : RState :=
  cleanState
    [⟨.B, 0, 1, 1⟩, ⟨.B, 1, 0, 2⟩, ⟨.B, 2, 1, 3⟩, ⟨.B, 1, 2, 4⟩, ⟨.B, 1, 1, 5⟩]
    (gridOf [(.B, 0, 1), (.B, 1, 0), (.B, 2, 1), (.B, 1, 2), (.B, 1, 1)])
    [[], [], [], [], []]

/-- A mid-sequence White move at the occupied point (1,1). -/
def mC2 : Move := ⟨.W, 1, 1, 4⟩

/-- Aliasing scenario: two committed moves. -/
def sC5 : RState :=
  cleanState [⟨.B, 0, 0, 1⟩, ⟨.W, 2, 2, 2⟩]
    (gridOf [(.B, 0, 0), (.W, 2, 2)]) [[], []]

/-- A mid-sequence insertion at number 1. -/
def mC5 : Move := ⟨.B, 5, 5, 1⟩

/-- Suicide scenario (core state): Black stones at (1,0) and (0,1) enclose
the empty corner (0,0); two prior moves in the logs. -/
def cSuicide : CState :=
  { store := [⟨.B, 1, 0, 1⟩, ⟨.B, 0, 1, 2⟩],
    stones := gridOf [(.B, 1, 0), (.B, 0, 1)],
    deleted := [[], []], history := [0, 1],
    sb := gridOf [(.B, 1, 0), (.B, 0, 1)], db := [[], []], hb := [0, 1] }

/-- The White play into the corner eye. -/
def mSuicide : Move := ⟨.W, 0, 0, 3⟩

/-- The Ko-scenario buffer two plies later as a core state: the recapture
at (0,0) captures Black (0,1) here. -/
def cCapture : CState :=
  { store := sKo2.store, stones := sKo2.stones, deleted := sKo2.deleted,
    history := sKo2.history, sb := sKo2.stones, db := sKo2.deleted,
    hb := sKo2.history }

/-- A record with a setup-property node (`AW[aa]`), as produced by loading
a handicap SGF file. -/
def kfSetup : Kifu :=
  { nodes := [rootNode, ⟨[("AW", .vstrs [['a', 'a']])]⟩], modified := false }

/-- A linear two-move record: Black c17 (move 1), White d16 (move 2),
nodes shaped exactly as `Kifu.append` shapes them. -/
def kfTwo : Kifu :=
  { nodes := [rootNode,
              ⟨[("B", .vstrs [['c', 'c']]), ("MN", .vints [1])]⟩,
              ⟨[("W", .vstrs [['d', 'd']]), ("MN", .vints [2])]⟩],
    modified := false }

/-- In-bounds predicate for board cells (the positions `touch` may yield
and the flood fill may visit). -/
def inBp (p : Int × Int) : Prop :=
  0 ≤ p.1 ∧ p.1 < 19 ∧ 0 ≤ p.2 ∧ p.2 < 19

/-- The 361 board cells, used to bound the size of the flood-fill group. -/
def cellsL : List (Int × Int) :=
  (List.range 19).flatMap fun i => (List.range 19).map fun j => ((i : Int), (j : Int))

/-! ## Helper lemmas -/

theorem toNat_pyChr (n : Int) (h0 : 0 ≤ n) (h : n < 200) :
    (pyChr n).toNat = n.toNat := by
  unfold pyChr Char.ofNat
  rw [dif_pos]
  · rfl
  · exact Or.inl (by omega)

theorem copyMove_eq (m : Move) : copyMove m = m :=
  rfl

theorem nonPass_of_inbounds (m : Move) (h1 : 0 ≤ m.x) (h2 : m.x < 19) :
    nonPass m = true := by
  have hch : (pyChr (m.x + 97)).toNat = (m.x + 97).toNat :=
    toNat_pyChr _ (by omega) (by omega)
  unfold nonPass Move.get_coord
  rw [if_neg (by decide), if_pos rfl, decide_eq_true_eq]
  intro h
  rw [Option.some.injEq, Prod.mk.injEq] at h
  have hc : pyChr (m.x + 97) = '-' := by
    have := h.1
    simpa using this
  have h45 : (pyChr (m.x + 97)).toNat = 45 := by rw [hc]; rfl
  rw [hch] at h45
  omega

/-! ## Claim theorems -/

/-- C8: coordinate-frame round trip.  For a move with in-range internal
coordinates and any of the four supported frames, rebuilding the move from
the pair returned by `get_coord` (with the same color) restores exactly the
original color and coordinates: `get_coord` and `_interpret` are mutually
inverse pure conversions. -/
theorem coord_roundtrip (c : Color) (x y n : Int) (f : String)
    (_hc : c = .B ∨ c = .W) (hx0 : 0 ≤ x) (hx : x < 19) (hy0 : 0 ≤ y) (hy : y < 19)
    (hf : f = "tk" ∨ f = "sgf" ∨ f = "np" ∨ f = "kgs") :
    ∃ a b, (Move.mk c x y n).get_coord f = some (a, b) ∧
      interpretMove f c a b = some (c, x, y) := by
  rcases hf with rfl | rfl | rfl | rfl
  · exact ⟨_, _, rfl, rfl⟩
  · refine ⟨_, _, rfl, ?_⟩
    unfold interpretMove
    rw [if_neg (by decide), if_pos rfl]
    simp only [pyOrd]
    rw [toNat_pyChr _ (by omega) (by omega), toNat_pyChr _ (by omega) (by omega)]
    simp only [Option.some.injEq, Prod.mk.injEq]
    exact ⟨trivial, by omega, by omega⟩
  · exact ⟨_, _, rfl, rfl⟩
  · refine ⟨_, _, rfl, ?_⟩
    unfold interpretMove
    rw [if_neg (by decide), if_neg (by decide), if_neg (by decide), if_pos rfl]
    simp only [pyOrd, pyInt]
    rw [toNat_pyChr _ (by split <;> omega) (by split <;> omega)]
    by_cases h8 : x < 8
    · rw [if_pos h8, if_pos (by omega)]
      simp only [Option.some.injEq, Prod.mk.injEq, gsize]
      exact ⟨trivial, by omega, by omega⟩
    · rw [if_neg h8, if_neg (by omega)]
      simp only [Option.some.injEq, Prod.mk.injEq, gsize]
      exact ⟨trivial, by omega, by omega⟩

/-- Witness for C8 at a concrete move and frame. -/
theorem coord_roundtrip_witness :
    ∃ a b, (Move.mk .B 3 5 1).get_coord "kgs" = some (a, b) ∧
      interpretMove "kgs" .B a b = some (.B, 3, 5) :=
  coord_roundtrip .B 3 5 1 "kgs" (Or.inl rfl) (by decide) (by decide) (by decide)
    (by decide) (by simp)

/-- C3 counterexample: on a freshly constructed engine (`__init__` ends in
`reset()`, so `stones_buff` is a list, not `None`), `confirm()` does *not*
fail with "confirmation denied": it succeeds, promoting the (empty) buffer
and notifying the listener. -/
theorem confirm_fresh_counterexample :
    confirm (initEngine true) = .ok { initEngine true with notified := [emptyGrid] } :=
  rfl

/-- C3 amended: `confirm` promotes the buffered grid, capture log and
history to the committed state and notifies the registered listener with
the new grid whenever a buffer exists — which is always the case after
construction, including on a freshly constructed engine; the
"Confirmation Denied" failure fires only in the bufferless state
(`stones_buff is None`), which is unreachable through the public API. -/
theorem confirm_spec (s : RState) :
    (∀ b, s.buff = some b →
      confirm s = .ok { s with stones := b.sb, deleted := b.db, history := b.hb,
                               notified := if s.hasListener then s.notified ++ [b.sb]
                                           else s.notified }) ∧
    (s.buff = none → confirm s = .error (.state "Confirmation Denied", resetS s)) := by
  constructor
  · intro b hb
    simp [confirm, hb]
  · intro hb
    simp [confirm, hb]

/-- Witness for C3 at a fresh engine, and at the bufferless state. -/
theorem confirm_spec_witness :
    confirm (initEngine true) = .ok { initEngine true with notified := [emptyGrid] } ∧
    confirm { initEngine true with buff := none }
      = .error (.state "Confirmation Denied",
                resetS { initEngine true with buff := none }) := by
  constructor
  · exact (confirm_spec (initEngine true)).1 ⟨emptyGrid, [], []⟩ rfl
  · exact (confirm_spec { initEngine true with buff := none }).2 rfl

/-- C6 counterexample: in scanner state 0 (before the opening parenthesis)
an unrecognized character raises nothing — it is silently ignored (the
`raise` is commented out in the source), so `"x(;)"` parses successfully
even though `'x'` is not recognized in state 0. -/
theorem scanner_state0_counterexample :
    scanStep ⟨0, [], []⟩ 'x' = .ok (⟨0, [], []⟩, []) ∧
    parseSgf ['x', '(', ';', ')'] = .ok [.startGT, .startNode, .endNode, .endGT] :=
  ⟨rfl, rfl⟩

/-- C6 amended: in every scanner state *except* state 0 (where any
character that is neither whitespace nor `'('` is silently skipped), an
unrecognized character raises a parse error carrying the offending
character and the state; and a stream whose scan completes in a state
other than the tree-closed state 4 raises a parse error carrying that
state. -/
theorem scanner_errors :
    (∀ (st : ScanSt) (ch : Char), st.q ≠ 0 → unrecIn st.q ch = true →
      scanStep st ch = .error (.unrec ch st.q)) ∧
    (∀ (st : ScanSt) (ch : Char), st.q = 0 → ∃ r, scanStep st ch = .ok r) ∧
    (∀ (cs : List Char) (st : ScanSt) (evs : List Ev),
      scanRun scanInit cs = .ok (st, evs) → st.q ≠ 4 →
      parseSgf cs = .error (.eos st.q)) := by
  refine ⟨?_, ?_, ?_⟩
  · intro st ch h0 hu
    unfold scanStep
    unfold unrecIn at hu
    rw [if_neg h0] at hu
    rw [if_neg h0]
    by_cases h1 : st.q = 1
    · rw [if_pos h1] at hu
      rw [if_pos h1, h1]
      simp only [Bool.and_eq_true, Bool.not_eq_true', decide_eq_false_iff_not] at hu
      simp_all
    rw [if_neg h1] at hu
    rw [if_neg h1]
    by_cases h2 : st.q = 2
    · rw [if_pos h2] at hu
      rw [if_pos h2, h2]
      simp only [Bool.and_eq_true, Bool.not_eq_true', decide_eq_false_iff_not] at hu
      simp_all
    rw [if_neg h2] at hu
    rw [if_neg h2]
    by_cases h3 : st.q = 3
    · rw [if_pos h3] at hu
      rw [if_pos h3, h3]
      simp only [Bool.and_eq_true, Bool.not_eq_true', decide_eq_false_iff_not] at hu
      simp_all
    rw [if_neg h3] at hu
    rw [if_neg h3]
    by_cases h4 : st.q = 4
    · rw [if_pos h4] at hu
      rw [if_pos h4, h4]
      simp only [Bool.and_eq_true, Bool.not_eq_true', decide_eq_false_iff_not] at hu
      simp_all
    rw [if_neg h4] at hu
    rw [if_neg h4]
    by_cases h5 : st.q = 5
    · rw [if_pos h5] at hu
      exact absurd hu (by simp)
    rw [if_neg h5] at hu
    rw [if_neg h5]
    by_cases h6 : st.q = 6
    · rw [if_pos h6] at hu
      exact absurd hu (by simp)
    rw [if_neg h6] at hu
    rw [if_neg h6]
    by_cases h7 : st.q = 7
    · rw [if_pos h7] at hu
      rw [if_pos h7, h7]
      simp only [Bool.and_eq_true, Bool.not_eq_true', decide_eq_false_iff_not] at hu
      simp_all
    rw [if_neg h7]
  · intro st ch h0
    unfold scanStep
    rw [if_pos h0]
    split
    · exact ⟨_, rfl⟩
    · split
      · exact ⟨_, rfl⟩
      · exact ⟨_, rfl⟩
  · intro cs st evs h hq
    unfold parseSgf
    rw [h]
    exact if_neg hq

/-- Witness for C6: `'x'` is unrecognized in state 1 and raises `(ch, 1)`;
the one-character stream `"("` ends in state 1 and raises `(1)`. -/
theorem scanner_errors_witness :
    scanStep ⟨1, [], []⟩ 'x' = .error (.unrec 'x' 1) ∧
    parseSgf ['('] = .error (.eos 1) :=
  ⟨scanner_errors.1 ⟨1, [], []⟩ 'x' (by decide) (by decide),
   scanner_errors.2.2 ['('] ⟨1, [], []⟩ [.startGT] rfl (by decide)⟩

/-- C5 (code bug): a mid-sequence `put` renumbers the `Move` objects that
`history_buff` shares with the committed `history` (the `reset()` copy
`list(self.history)` is shallow), so the call mutates the committed
history in place: on a two-move committed game, `put` of a new move
number 1 leaves the committed history holding numbers `[2, 3]`. -/
theorem put_mutates_committed_history :
    ∃ s', put mC5 true sC5 = .ok s' ∧ s'.history = sC5.history ∧
      sC5.history.map (fun r => (sC5.store.getD r mC5).number) = [1, 2] ∧
      s'.history.map (fun r => (s'.store.getD r mC5).number) = [2, 3] :=
  ⟨_, rfl, rfl, rfl, rfl⟩

/-- C2 counterexample: a non-pass move whose target cell holds a stone in
the buffer for which `put` nevertheless succeeds: the mid-sequence rewind
removes the occupant, the spliced White stone at (1,1) is then captured
during the replay, and the replayed occupant lands on the again-empty
cell. -/
theorem occupied_counterexample :
    nonPass mC2 = true ∧
    (∃ b, sC2.buff = some b ∧ gridGet b.sb mC2.x mC2.y = .B) ∧
    ∃ s', put mC2 true sC2 = .ok s' :=
  ⟨rfl, ⟨_, rfl, rfl⟩, ⟨_, rfl⟩⟩

/-- C10 counterexample: a record containing a setup-property node
(`AW[aa]`).  No node has a derived move (the root derives none, the setup
node's `getmove` raises), so the premise of the claim holds for any move
number, yet `delete` raises the uncaught `SgfWarning` instead of being a
no-op. -/
theorem delete_sgfwarning_counterexample :
    getmove rootNode = .ok none ∧
    getmove ⟨[("AW", PropVal.vstrs [['a', 'a']])]⟩ = .error .sgfW ∧
    deleteK kfSetup ⟨.B, 2, 2, 1⟩ = .error .sgfW :=
  ⟨rfl, rfl, rfl⟩


theorem mem_cellsL {p : Int × Int} (h : inBp p) : p ∈ cellsL := by
  obtain ⟨h1, h2, h3, h4⟩ := h
  simp only [cellsL, List.mem_flatMap, List.mem_map, List.mem_range]
  refine ⟨p.1.toNat, by omega, (p.2.toNat : Int), ?_, ?_⟩
  · simp only [List.pure_def, List.bind_eq_flatMap, List.mem_flatMap, List.mem_range,
      List.mem_singleton]
    exact ⟨p.2.toNat, by omega, rfl⟩
  · refine Prod.ext_iff.mpr ⟨?_, ?_⟩
    · show (p.1.toNat : Int) = p.1
      omega
    · show (p.2.toNat : Int) = p.2
      omega

set_option maxRecDepth 4000 in
theorem cellsL_length : cellsL.length = 361 := by rfl

theorem nodup_inBp_bound (l : List (Int × Int)) (hd : l.Nodup)
    (hb : ∀ p ∈ l, inBp p) : l.length ≤ 361 := by
  have h := List.Subperm.length_le
    (List.Nodup.subperm hd (fun p hp => mem_cellsL (hb p hp)))
  rwa [cellsL_length] at h

theorem touch_inBp (x y : Int) : ∀ p ∈ touchL x y, inBp p := by
  intro p hp
  simp only [touchL, List.mem_filterMap, List.mem_cons] at hp
  obtain ⟨d, hd, hf⟩ := hp
  simp only [List.mem_singleton, List.not_mem_nil, or_false] at hd
  rcases hd with rfl | rfl | rfl | rfl <;>
  · simp only [gsize] at hf
    split_ifs at hf with h1 h2
    · cases hf
      simp only [inBp] at h1 h2 ⊢
      refine ⟨by omega, by omega, by omega, by omega⟩

theorem data_shape (fuel : Nat) :
    (∀ (g : Grid) (x y : Int) (st st2 : GrpLibs), inBp (x, y) → st.1.Nodup →
      (∀ p ∈ st.1, inBp p) → dataAux g fuel x y st = some st2 →
      st2.1.Nodup ∧ (∀ p ∈ st2.1, inBp p) ∧ st.1.length ≤ st2.1.length) ∧
    (∀ (g : Grid) (color : Color) (ps : List (Int × Int)) (st st2 : GrpLibs),
      (∀ p ∈ ps, inBp p) → st.1.Nodup → (∀ p ∈ st.1, inBp p) →
      dataFold g color (dataAux g fuel) ps st = some st2 →
      st2.1.Nodup ∧ (∀ p ∈ st2.1, inBp p) ∧ st.1.length ≤ st2.1.length) := by
  induction fuel with
  | zero =>
    have hFold : ∀ (g : Grid) (color : Color) (ps : List (Int × Int)) (st st2 : GrpLibs),
        (∀ p ∈ ps, inBp p) → st.1.Nodup → (∀ p ∈ st.1, inBp p) →
        dataFold g color (dataAux g 0) ps st = some st2 →
        st2.1.Nodup ∧ (∀ p ∈ st2.1, inBp p) ∧ st.1.length ≤ st2.1.length := by
      intro g color ps
      induction ps with
      | nil =>
        intro st st2 _ hn hb h
        simp only [dataFold, Option.some.injEq] at h
        subst h
        exact ⟨hn, hb, le_refl _⟩
      | cons p rest ih =>
        intro st st2 hps hn hb h
        unfold dataFold at h
        by_cases hE : gridGet g p.1 p.2 = Color.E
        · rw [if_pos hE] at h
          exact ih (st.1, if p ∈ st.2 then st.2 else st.2 ++ [p]) st2
            (fun q hq => hps q (List.mem_cons_of_mem _ hq)) hn hb h
        · rw [if_neg hE] at h
          by_cases hcol : gridGet g p.1 p.2 = color
          · rw [if_pos hcol] at h
            simp only [dataAux] at h
            exact absurd h (by simp)
          · rw [if_neg hcol] at h
            exact ih st st2 (fun q hq => hps q (List.mem_cons_of_mem _ hq)) hn hb h
    refine ⟨?_, hFold⟩
    intro g x y st st2 _ _ _ h
    simp [dataAux] at h
  | succ fuel ih =>
    obtain ⟨_, ihFold⟩ := ih
    have hAux : ∀ (g : Grid) (x y : Int) (st st2 : GrpLibs), inBp (x, y) → st.1.Nodup →
        (∀ p ∈ st.1, inBp p) → dataAux g (fuel + 1) x y st = some st2 →
        st2.1.Nodup ∧ (∀ p ∈ st2.1, inBp p) ∧ st.1.length ≤ st2.1.length := by
      intro g x y st st2 hxy hn hb h
      unfold dataAux at h
      split at h
      · rw [Option.some.injEq] at h
        subst h
        exact ⟨hn, hb, le_refl _⟩
      · rename_i hnot
        have hnd : (st.1 ++ [(x, y)]).Nodup := by
          simp [List.nodup_append, hn, hnot]
        have hbb : ∀ p ∈ st.1 ++ [(x, y)], inBp p := by
          intro p hp
          rcases List.mem_append.mp hp with hp | hp
          · exact hb p hp
          · simp only [List.mem_singleton] at hp
            subst hp
            exact hxy
        obtain ⟨c1, c2, c3⟩ := ihFold g (gridGet g x y) (touchL x y)
          (st.1 ++ [(x, y)], st.2) st2 (touch_inBp x y) hnd hbb h
        have c3b : (st.1 ++ [(x, y)]).length ≤ st2.1.length := c3
        rw [List.length_append, List.length_singleton] at c3b
        exact ⟨c1, c2, by omega⟩
    have hFold : ∀ (g : Grid) (color : Color) (ps : List (Int × Int)) (st st2 : GrpLibs),
        (∀ p ∈ ps, inBp p) → st.1.Nodup → (∀ p ∈ st.1, inBp p) →
        dataFold g color (dataAux g (fuel + 1)) ps st = some st2 →
        st2.1.Nodup ∧ (∀ p ∈ st2.1, inBp p) ∧ st.1.length ≤ st2.1.length := by
      intro g color ps
      induction ps with
      | nil =>
        intro st st2 _ hn hb h
        simp only [dataFold, Option.some.injEq] at h
        subst h
        exact ⟨hn, hb, le_refl _⟩
      | cons p rest ih2 =>
        intro st st2 hps hn hb h
        unfold dataFold at h
        by_cases hE : gridGet g p.1 p.2 = Color.E
        · rw [if_pos hE] at h
          exact ih2 (st.1, if p ∈ st.2 then st.2 else st.2 ++ [p]) st2
            (fun q hq => hps q (List.mem_cons_of_mem _ hq)) hn hb h
        · rw [if_neg hE] at h
          by_cases hcol : gridGet g p.1 p.2 = color
          · rw [if_pos hcol] at h
            split at h
            · exact absurd h (by simp)
            · rename_i st1 heq
              obtain ⟨d1, d2, d3⟩ := hAux g p.1 p.2 st st1
                (hps p (List.mem_cons_self _ _)) hn hb heq
              obtain ⟨e1, e2, e3⟩ := ih2 st1 st2
                (fun q hq => hps q (List.mem_cons_of_mem _ hq)) d1 d2 h
              exact ⟨e1, e2, le_trans d3 e3⟩
          · rw [if_neg hcol] at h
            exact ih2 st st2 (fun q hq => hps q (List.mem_cons_of_mem _ hq)) hn hb h
    exact ⟨hAux, hFold⟩


theorem data_total (fuel : Nat) :
    (∀ (g : Grid) (x y : Int) (st : GrpLibs), inBp (x, y) → st.1.Nodup →
      (∀ p ∈ st.1, inBp p) → 361 < fuel + st.1.length →
      (dataAux g fuel x y st).isSome = true) ∧
    (∀ (g : Grid) (color : Color) (ps : List (Int × Int)) (st : GrpLibs),
      (∀ p ∈ ps, inBp p) → st.1.Nodup → (∀ p ∈ st.1, inBp p) →
      361 < fuel + st.1.length →
      (dataFold g color (dataAux g fuel) ps st).isSome = true) := by
  induction fuel with
  | zero =>
    constructor
    · intro g x y st _ hn hb hf
      have := nodup_inBp_bound st.1 hn hb
      omega
    · intro g color ps st _ hn hb hf
      have := nodup_inBp_bound st.1 hn hb
      omega
  | succ fuel ih =>
    obtain ⟨_, ihFold⟩ := ih
    have hAux : ∀ (g : Grid) (x y : Int) (st : GrpLibs), inBp (x, y) → st.1.Nodup →
        (∀ p ∈ st.1, inBp p) → 361 < (fuel + 1) + st.1.length →
        (dataAux g (fuel + 1) x y st).isSome = true := by
      intro g x y st hxy hn hb hf
      unfold dataAux
      split
      · rfl
      · rename_i hnot
        have hnd : (st.1 ++ [(x, y)]).Nodup := by
          simp [List.nodup_append, hn, hnot]
        have hbb : ∀ p ∈ st.1 ++ [(x, y)], inBp p := by
          intro p hp
          rcases List.mem_append.mp hp with hp | hp
          · exact hb p hp
          · simp only [List.mem_singleton] at hp
            subst hp
            exact hxy
        apply ihFold g (gridGet g x y) (touchL x y) (st.1 ++ [(x, y)], st.2)
          (touch_inBp x y) hnd hbb
        show 361 < fuel + (st.1 ++ [(x, y)]).length
        rw [List.length_append, List.length_singleton]
        omega
    have hFold : ∀ (g : Grid) (color : Color) (ps : List (Int × Int)) (st : GrpLibs),
        (∀ p ∈ ps, inBp p) → st.1.Nodup → (∀ p ∈ st.1, inBp p) →
        361 < (fuel + 1) + st.1.length →
        (dataFold g color (dataAux g (fuel + 1)) ps st).isSome = true := by
      intro g color ps
      induction ps with
      | nil =>
        intro st _ _ _ _
        rfl
      | cons p rest ih2 =>
        intro st hps hn hb hf
        unfold dataFold
        by_cases hE : gridGet g p.1 p.2 = Color.E
        · rw [if_pos hE]
          exact ih2 (st.1, if p ∈ st.2 then st.2 else st.2 ++ [p])
            (fun q hq => hps q (List.mem_cons_of_mem _ hq)) hn hb hf
        · rw [if_neg hE]
          by_cases hcol : gridGet g p.1 p.2 = color
          · rw [if_pos hcol]
            have hs := hAux g p.1 p.2 st (hps p (List.mem_cons_self _ _)) hn hb hf
            obtain ⟨st1, heq⟩ := Option.isSome_iff_exists.mp hs
            rw [heq]
            obtain ⟨d1, d2, d3⟩ := (data_shape (fuel + 1)).1 g p.1 p.2 st st1
              (hps p (List.mem_cons_self _ _)) hn hb heq
            exact ih2 st1 (fun q hq => hps q (List.mem_cons_of_mem _ hq)) d1 d2 (by omega)
          · rw [if_neg hcol]
            exact ih2 st (fun q hq => hps q (List.mem_cons_of_mem _ hq)) hn hb hf
    exact ⟨hAux, hFold⟩

/-- C9: every position yielded by `touch(x, y)` lies inside the board for
all integer arguments, and consequently the flood fill `_data`, seeded
in bounds, only ever visits in-bounds cells and terminates: with fuel
`gsize * gsize + 1` (each recursive call adds a previously unvisited
in-bounds cell to the group accumulator) the recursion never exhausts its
fuel. -/
theorem touch_bounds_data_total :
    (∀ x y : Int, ∀ p ∈ touchL x y, 0 ≤ p.1 ∧ p.1 < 19 ∧ 0 ≤ p.2 ∧ p.2 < 19) ∧
    (∀ (g : Grid) (x y : Int), 0 ≤ x → x < 19 → 0 ≤ y → y < 19 →
      (dataAux g dataFuel x y ([], [])).isSome = true) := by
  constructor
  · intro x y p hp
    exact touch_inBp x y p hp
  · intro g x y h1 h2 h3 h4
    refine (data_total dataFuel).1 g x y ([], []) ⟨h1, h2, h3, h4⟩ List.nodup_nil ?_ ?_
    · intro p hp
      simp at hp
    · show 361 < 362 + ([] : List (Int × Int)).length
      simp

/-- Witness for C9 at the corner seed. -/
theorem touch_bounds_data_total_witness :
    (0 ≤ ((1, 0) : Int × Int).1 ∧ ((1, 0) : Int × Int).1 < 19 ∧
      0 ≤ ((1, 0) : Int × Int).2 ∧ ((1, 0) : Int × Int).2 < 19) ∧
    (dataAux emptyGrid dataFuel 0 0 ([], [])).isSome = true :=
  ⟨touch_bounds_data_total.1 0 0 (1, 0) (by decide),
   touch_bounds_data_total.2 emptyGrid 0 0 (by decide) (by decide) (by decide) (by decide)⟩


theorem koCheck_concat_nil (db : List (List Move)) (m : Move) :
    koCheck (db ++ [[]]) m = false := by
  unfold koCheck
  split
  · rw [if_neg]
    rw [List.getLastD_concat]
    simp
  · rfl

/-- C4: suicide rule at the level of `_append`.  A non-pass move onto an
empty cell whose capture scan kills nothing and whose own group then has
zero liberties fails with Suicide; when the capture scan killed at least
one enemy stone (`safe`), the suicide check is never applied — the move is
never rejected as Suicide, and it is accepted outright whenever the Ko
test does not fire. -/
theorem suicide_rule (c : CState) (m : Move) (enem : Color) (g2 : Grid)
    (hx0 : 0 ≤ m.x) (hx : m.x < 19) (_hy0 : 0 ≤ m.y) (_hy : m.y < 19)
    (hcol : m.color = .B ∨ m.color = .W)
    (hE : gridGet c.sb m.x m.y = .E) (he : enemyOf m.color = some enem) :
    (killScan enem (touchL m.x m.y) (gridSet c.sb m.x m.y m.color) [] false
        = some (g2, [], false) →
      ∀ grp, dataF g2 m.x m.y = some (grp, 0) →
        appendC m c = .error (.state "Suicide", resetC c)) ∧
    (∀ dele, killScan enem (touchL m.x m.y) (gridSet c.sb m.x m.y m.color) [] false
        = some (g2, dele, true) →
      (∀ st, appendC m c ≠ .error (.state "Suicide", st)) ∧
      (koCheck (c.db ++ [dele]) m = false →
        appendC m c = .ok { c with sb := g2, db := c.db ++ [dele] })) := by
  have hnp := nonPass_of_inbounds m hx0 hx
  constructor
  · intro hkill grp hdata
    unfold appendC
    rw [if_pos hnp, if_pos hcol, if_pos hE, he]
    simp only []
    rw [hkill]
    simp only []
    rw [koCheck_concat_nil]
    simp only [Bool.false_eq_true, if_false]
    rw [hdata]
    rfl
  · intro dele hkill
    constructor
    · intro st hcontra
      unfold appendC at hcontra
      rw [if_pos hnp, if_pos hcol, if_pos hE, he] at hcontra
      simp only [] at hcontra
      rw [hkill] at hcontra
      simp only [] at hcontra
      split at hcontra
      · unfold raiseC at hcontra
        rw [Except.error.injEq, Prod.mk.injEq] at hcontra
        exact absurd hcontra.1 (by simp)
      · exact absurd hcontra (by simp)
    · intro hko
      unfold appendC
      rw [if_pos hnp, if_pos hcol, if_pos hE, he]
      simp only []
      rw [hkill]
      simp only []
      rw [hko]
      rfl


theorem forwardC_nil_eta (m : Move) (c : CState) :
    (match appendC m c with
     | .error e => .error e
     | .ok c1 => forwardC [] c1) = appendC m c := by
  cases appendC m c <;> rfl

theorem putC_tail_insert (m : Move) (c : CState)
    (hnum : m.number = (c.hb.length : Int) + 1) (hdb : c.db.length = c.hb.length) :
    putC m c = appendC m { c with store := c.store ++ [m],
                                  hb := c.hb ++ [c.store.length] } := by
  unfold putC
  rw [if_neg (by omega)]
  have hrew : rewindC m (c.db.length + 1) 0 c = .ok c := by
    unfold rewindC
    rw [if_neg (by omega)]
  rw [hrew]
  simp only []
  have hidx : (m.number - 1).toNat = c.hb.length := by omega
  have hidx2 : m.number.toNat = c.hb.length + 1 := by omega
  rw [hidx, hidx2, List.take_length, List.drop_length, copyMove_eq]
  simp only [List.append_nil]
  have hdrop1 : ((c.hb ++ [c.store.length]).drop (c.hb.length + 1)) = [] := by
    apply List.drop_eq_nil_of_le
    simp
  rw [hdrop1]
  simp only [List.foldl_nil]
  have hdrop2 : ((c.hb ++ [c.store.length]).drop c.hb.length) = [c.store.length] :=
    List.drop_left c.hb [c.store.length]
  rw [hdrop2]
  unfold forwardC
  rw [List.getElem?_concat_length]
  simp only []
  exact forwardC_nil_eta m _

theorem koCheck_fires (db : List (List Move)) (m q p : Move)
    (hlen : 3 ≤ db.length) (hlast : db.getLast? = some [p])
    (hmq : moveEq m p = true) : koCheck (db ++ [[q]]) m = true := by
  unfold koCheck
  rw [if_pos (by simp only [List.length_append, List.length_singleton]; omega), List.getLastD_concat]
  rw [if_pos (by simp)]
  have hidx : (db ++ [[q]]).length - 2 = db.length - 1 := by
    simp only [List.length_append, List.length_singleton]
    omega
  rw [hidx, List.getD_append db [[q]] [] (db.length - 1) (by omega)]
  have : db.getD (db.length - 1) [] = [p] := by
    rw [List.getD_eq_getElem?_getD, ← List.getLast?_eq_getElem?, hlast]
    rfl
  rw [this]
  exact hmq

theorem koCheck_prev_nil (db : List (List Move)) (m : Move) (dele : List Move)
    (hlast : db.getLast? = some []) : koCheck (db ++ [dele]) m = false := by
  have hne : db ≠ [] := by
    intro h
    rw [h] at hlast
    simp [List.getLast?] at hlast
  have hlen1 : 1 ≤ db.length := by
    cases db
    · exact absurd rfl hne
    · simp
  unfold koCheck
  split
  · rw [List.getLastD_concat]
    split
    · have hidx : (db ++ [dele]).length - 2 = db.length - 1 := by
        simp only [List.length_append, List.length_singleton]
        omega
      rw [hidx, List.getD_append db [dele] [] (db.length - 1) (by omega)]
      have : db.getD (db.length - 1) [] = [] := by
        rw [List.getD_eq_getElem?_getD, ← List.getLast?_eq_getElem?, hlast]
        rfl
      rw [this]
    · rfl
  · rfl


theorem gridGet_ne_E_inbounds (g : Grid) (x y : Int) (h : gridGet g x y ≠ .E) :
    0 ≤ x ∧ x < 19 ∧ 0 ≤ y ∧ y < 19 := by
  by_contra hcontra
  apply h
  unfold gridGet
  rw [if_neg]
  intro hb
  exact hcontra ⟨hb.1, hb.2.1, hb.2.2.1, hb.2.2.2⟩

theorem appendC_occupied (c : CState) (m : Move)
    (hnp : nonPass m = true) (hcol : m.color = .B ∨ m.color = .W)
    (hocc : gridGet c.sb m.x m.y ≠ .E) :
    appendC m c = .error (.state "Occupied", resetC c) := by
  unfold appendC
  rw [if_pos hnp, if_pos hcol, if_neg hocc]
  rfl

theorem appendC_ko (c : CState) (m : Move) (enem : Color) (g2 : Grid) (q p : Move)
    (hnp : nonPass m = true) (hcol : m.color = .B ∨ m.color = .W)
    (hE : gridGet c.sb m.x m.y = .E) (he : enemyOf m.color = some enem)
    (hkill : killScan enem (touchL m.x m.y) (gridSet c.sb m.x m.y m.color) [] false
      = some (g2, [q], true))
    (h3 : 3 ≤ c.db.length) (hlast : c.db.getLast? = some [p])
    (hmq : moveEq m p = true) :
    appendC m c = .error (.state "Ko", resetC c) := by
  unfold appendC
  rw [if_pos hnp, if_pos hcol, if_pos hE, he]
  simp only []
  rw [hkill]
  simp only []
  rw [koCheck_fires c.db m q p h3 hlast hmq]
  rfl

theorem appendC_capture_ok (c : CState) (m : Move) (enem : Color) (g2 : Grid)
    (dele : List Move)
    (hnp : nonPass m = true) (hcol : m.color = .B ∨ m.color = .W)
    (hE : gridGet c.sb m.x m.y = .E) (he : enemyOf m.color = some enem)
    (hkill : killScan enem (touchL m.x m.y) (gridSet c.sb m.x m.y m.color) [] false
      = some (g2, dele, true))
    (hko : koCheck (c.db ++ [dele]) m = false) :
    appendC m c = .ok { c with sb := g2, db := c.db ++ [dele] } := by
  unfold appendC
  rw [if_pos hnp, if_pos hcol, if_pos hE, he]
  simp only []
  rw [hkill]
  simp only []
  rw [hko]
  rfl

/-- C1: the Ko rule through `put`.  First half: on a committed position
whose last move (move `k`) captured exactly one stone, the immediate
one-for-one recapture — a move of the opposite color on the freed point,
numbered `k + 1`, that would itself capture exactly one stone — fails with
a Ko error and leaves the buffers reset to the committed state.  Second
half: the identical move played after an intervening committed move that
captured nothing succeeds.  (`3 ≤ k` holds in every position genuinely
reached by play: a single-stone capture needs at least three prior
moves.) -/
theorem ko_rule :
    (∀ (s : RState) (m : Move) (enem : Color) (g2 : Grid) (q p : Move),
      3 ≤ s.history.length → s.deleted.length = s.history.length →
      m.number = (s.history.length : Int) + 1 →
      (m.color = .B ∨ m.color = .W) →
      0 ≤ m.x → m.x < 19 → 0 ≤ m.y → m.y < 19 →
      gridGet s.stones m.x m.y = .E → enemyOf m.color = some enem →
      killScan enem (touchL m.x m.y) (gridSet s.stones m.x m.y m.color) [] false
        = some (g2, [q], true) →
      s.deleted.getLast? = some [p] → moveEq m p = true →
      put m true s = .error (.state "Ko", { resetS s with store := s.store ++ [m] })) ∧
    (∀ (s : RState) (m : Move) (enem : Color) (g2 : Grid) (dele : List Move),
      s.deleted.length = s.history.length →
      s.deleted.getLast? = some [] →
      m.number = (s.history.length : Int) + 1 →
      (m.color = .B ∨ m.color = .W) →
      0 ≤ m.x → m.x < 19 → 0 ≤ m.y → m.y < 19 →
      gridGet s.stones m.x m.y = .E → enemyOf m.color = some enem →
      killScan enem (touchL m.x m.y) (gridSet s.stones m.x m.y m.color) [] false
        = some (g2, dele, true) →
      ∃ s2, put m true s = .ok s2) := by
  constructor
  · intro s m enem g2 q p h3 hlen hnum hcol hx0 hx hy0 hy hE he hkill hlast hmq
    have hnp := nonPass_of_inbounds m hx0 hx
    unfold put
    rw [if_pos (show (0 : Int) < m.number by omega)]
    show liftC (resetS s) (putC m (toC (resetS s) ⟨s.stones, s.deleted, s.history⟩))
      = .error (.state "Ko", { resetS s with store := s.store ++ [m] })
    rw [putC_tail_insert m (toC (resetS s) ⟨s.stones, s.deleted, s.history⟩)
        (show m.number = ((s.history.length : Nat) : Int) + 1 from hnum)
        (show s.deleted.length = s.history.length from hlen)]
    rw [appendC_ko _ m enem g2 q p hnp hcol
        (show gridGet s.stones m.x m.y = .E from hE) he
        (show killScan enem (touchL m.x m.y) (gridSet s.stones m.x m.y m.color) [] false
          = some (g2, [q], true) from hkill)
        (show 3 ≤ s.deleted.length by omega)
        (show s.deleted.getLast? = some [p] from hlast) hmq]
    rfl
  · intro s m enem g2 dele hlen hlast hnum hcol hx0 hx hy0 hy hE he hkill
    have hnp := nonPass_of_inbounds m hx0 hx
    unfold put
    rw [if_pos (show (0 : Int) < m.number by omega)]
    show (∃ s2, liftC (resetS s)
      (putC m (toC (resetS s) ⟨s.stones, s.deleted, s.history⟩)) = .ok s2)
    rw [putC_tail_insert m (toC (resetS s) ⟨s.stones, s.deleted, s.history⟩)
        (show m.number = ((s.history.length : Nat) : Int) + 1 from hnum)
        (show s.deleted.length = s.history.length from hlen)]
    rw [appendC_capture_ok _ m enem g2 dele hnp hcol
        (show gridGet s.stones m.x m.y = .E from hE) he
        (show killScan enem (touchL m.x m.y) (gridSet s.stones m.x m.y m.color) [] false
          = some (g2, dele, true) from hkill)
        (koCheck_prev_nil s.deleted m dele hlast)]
    exact ⟨_, rfl⟩

/-- C2 amended: for every engine state whose capture log and history have
equal length and every non-pass move with color Black or White, a positive
number, and number equal to `len(history)` or `len(history) + 1` (so the
move is applied directly at the tail after the reset), a `put` whose
target cell holds a stone in the committed grid (= the buffer after the
reset) fails with Occupied, and after the error the buffered grid and the
committed grid both equal the committed grid from before the call. -/
theorem occupied_tail (s : RState) (m : Move)
    (hn : 0 < m.number) (hcol : m.color = .B ∨ m.color = .W)
    (hlen : s.deleted.length = s.history.length)
    (hnum : m.number = (s.history.length : Int) ∨
      m.number = (s.history.length : Int) + 1)
    (hocc : gridGet s.stones m.x m.y ≠ .E) :
    ∃ s2, put m true s = .error (.state "Occupied", s2) ∧
      s2.stones = s.stones ∧ s2.deleted = s.deleted ∧ s2.history = s.history ∧
      s2.buff = some ⟨s.stones, s.deleted, s.history⟩ := by
  obtain ⟨hx0, hx, hy0, hy⟩ := gridGet_ne_E_inbounds s.stones m.x m.y hocc
  have hnp := nonPass_of_inbounds m hx0 hx
  rcases hnum with hnum | hnum
  · refine ⟨resetS s, ?_, rfl, rfl, rfl, rfl⟩
    unfold put
    rw [if_pos hn]
    show liftC (resetS s) (putC m (toC (resetS s) ⟨s.stones, s.deleted, s.history⟩))
      = .error (.state "Occupied", resetS s)
    unfold putC
    rw [if_pos (show m.number
      = ((toC (resetS s) ⟨s.stones, s.deleted, s.history⟩).hb.length : Int) from hnum)]
    rw [appendC_occupied _ m hnp hcol
      (show gridGet s.stones m.x m.y ≠ .E from hocc)]
    rfl
  · refine ⟨{ resetS s with store := s.store ++ [m] }, ?_, rfl, rfl, rfl, rfl⟩
    unfold put
    rw [if_pos hn]
    show liftC (resetS s) (putC m (toC (resetS s) ⟨s.stones, s.deleted, s.history⟩))
      = .error (.state "Occupied", { resetS s with store := s.store ++ [m] })
    rw [putC_tail_insert m (toC (resetS s) ⟨s.stones, s.deleted, s.history⟩)
        (show m.number = ((s.history.length : Nat) : Int) + 1 from hnum)
        (show s.deleted.length = s.history.length from hlen)]
    rw [appendC_occupied _ m hnp hcol
      (show gridGet s.stones m.x m.y ≠ .E from hocc)]
    rfl


/-- Witness for C4: the eye-filling White move at (0,0) is rejected as
Suicide; the recapture in the Ko scenario captures a stone and is never
rejected as Suicide but accepted. -/
theorem suicide_rule_witness :
    appendC mSuicide cSuicide = .error (.state "Suicide", resetC cSuicide) ∧
    (∀ st, appendC mKo2 cCapture ≠ .error (.state "Suicide", st)) ∧
    appendC mKo2 cCapture = .ok { cCapture with
      sb := gridSet (gridSet sKo2.stones 0 0 .W) 0 1 .E,
      db := cCapture.db ++ [[⟨.B, 0, 1, -1⟩]] } :=
  ⟨(suicide_rule cSuicide mSuicide .B (gridSet cSuicide.sb 0 0 .W) (by decide) (by decide)
      (by decide) (by decide) (Or.inr rfl) (by decide) rfl).1 (by decide) [(0, 0)]
      (by decide),
   ((suicide_rule cCapture mKo2 .B (gridSet (gridSet sKo2.stones 0 0 .W) 0 1 .E)
      (by decide) (by decide) (by decide) (by decide) (Or.inr rfl) (by decide) rfl).2
      [⟨.B, 0, 1, -1⟩] (by decide)).1,
   ((suicide_rule cCapture mKo2 .B (gridSet (gridSet sKo2.stones 0 0 .W) 0 1 .E)
      (by decide) (by decide) (by decide) (by decide) (Or.inr rfl) (by decide) rfl).2
      [⟨.B, 0, 1, -1⟩] (by decide)).2 (by decide)⟩

/-- Witness for C1 at the concrete corner Ko. -/
theorem ko_rule_witness :
    put mKo true sKo
      = .error (.state "Ko", { resetS sKo with store := sKo.store ++ [mKo] }) ∧
    ∃ s2, put mKo2 true sKo2 = .ok s2 :=
  ⟨ko_rule.1 sKo mKo .B (gridSet (gridSet sKo.stones 0 0 .W) 0 1 .E)
      ⟨.B, 0, 1, -1⟩ ⟨.W, 0, 0, -1⟩ (by decide) (by decide) (by decide) (Or.inr rfl)
      (by decide) (by decide) (by decide) (by decide) (by decide) rfl (by decide)
      (by decide) (by decide),
   ko_rule.2 sKo2 mKo2 .B (gridSet (gridSet sKo2.stones 0 0 .W) 0 1 .E)
      [⟨.B, 0, 1, -1⟩] (by decide) (by decide) (by decide) (Or.inr rfl) (by decide)
      (by decide) (by decide) (by decide) (by decide) rfl (by decide)⟩

/-- Witness for C2 at a concrete tail move onto an occupied point. -/
theorem occupied_tail_witness :
    ∃ s2, put ⟨.W, 1, 1, 6⟩ true sC2 = .error (.state "Occupied", s2) ∧
      s2.stones = sC2.stones ∧ s2.deleted = sC2.deleted ∧ s2.history = sC2.history ∧
      s2.buff = some ⟨sC2.stones, sC2.deleted, sC2.history⟩ :=
  occupied_tail sC2 ⟨.W, 1, 1, 6⟩ (by decide) (Or.inr rfl) (by decide)
    (Or.inr (by decide)) (by decide)


theorem delLoop_nomatch (target : Int) (ns : List NodeGl)
    (h : ∀ n ∈ ns, ∃ r, getmove n = .ok r ∧ ∀ mv, r = some mv → mv.number ≠ target) :
    ∀ i, delLoop target ns i false = .ok (ns, none) := by
  induction ns with
  | nil =>
    intro i
    rfl
  | cons n rest ih =>
    intro i
    obtain ⟨r, hr, hne⟩ := h n (List.mem_cons_self _ _)
    unfold delLoop
    rw [if_neg (by simp)]
    cases r with
    | none =>
      rw [hr]
      simp only []
      rw [ih (fun q hq => h q (List.mem_cons_of_mem _ hq)) (i + 1)]
    | some mv =>
      rw [hr]
      simp only []
      rw [if_neg (hne mv rfl)]
      rw [ih (fun q hq => h q (List.mem_cons_of_mem _ hq)) (i + 1)]

/-- C10 amended: when no node derives a move numbered `move.number` and
every node's `getmove` returns normally (no setup-property nodes, no
malformed values), `Kifu.delete(move)` is a complete no-op at the public
interface: node list, every `MN` property and the modified flag are
unchanged and no error is raised. -/
theorem delete_nomatch_noop (kf : Kifu) (m : Move)
    (h : ∀ n ∈ kf.nodes, ∃ r, getmove n = .ok r ∧
      ∀ mv, r = some mv → mv.number ≠ m.number) :
    deleteK kf m = .ok kf := by
  unfold deleteK
  rw [delLoop_nomatch m.number kf.nodes h 0]

/-- Witness for C10: deleting a move number absent from the two-move
record changes nothing. -/
theorem delete_nomatch_noop_witness :
    deleteK kfTwo ⟨.B, 9, 9, 5⟩ = .ok kfTwo := by
  apply delete_nomatch_noop
  intro n hn
  simp only [kfTwo, List.mem_cons, List.not_mem_nil, or_false] at hn
  rcases hn with rfl | rfl | rfl
  · exact ⟨none, rfl, fun mv hmv => by cases hmv⟩
  · exact ⟨some ⟨.B, 2, 2, 1⟩, rfl, fun mv hmv => by cases hmv; decide⟩
  · exact ⟨some ⟨.W, 3, 3, 2⟩, rfl, fun mv hmv => by cases hmv; decide⟩


theorem findP_cons_pos {α : Type} (p : α → Bool) (a : α) (l : List α) (h : p a = true) :
    List.find? p (a :: l) = some a :=
  List.find?_cons_of_pos l h

theorem findP_cons_neg {α : Type} (p : α → Bool) (a : α) (l : List α) (h : ¬p a = true) :
    List.find? p (a :: l) = List.find? p l :=
  List.find?_cons_of_neg l h

theorem propGet_propSet_self (ps : Props) (k : String) (v : PropVal) :
    propGet (propSet ps k v) k = some v := by
  unfold propSet
  by_cases hany : ps.any fun kv => kv.1 == k
  · rw [if_pos hany]
    unfold propGet
    induction ps with
    | nil => simp at hany
    | cons hd tl ih =>
      simp only [List.map_cons]
      by_cases h1 : hd.1 == k
      · rw [if_pos h1, findP_cons_pos (fun kv => kv.1 == k) (k, v) _ (by simp)]
        rfl
      · rw [if_neg h1, findP_cons_neg (fun kv => kv.1 == k) hd _ h1]
        rw [List.any_cons] at hany
        simp only [h1, Bool.false_or] at hany
        exact ih hany
  · rw [if_neg hany]
    unfold propGet
    rw [List.find?_append]
    have hnone : (ps.find? fun kv => kv.1 == k) = none := by
      rw [List.find?_eq_none]
      intro x hx hpx
      exact hany (List.any_eq_true.mpr ⟨x, hx, hpx⟩)
    rw [hnone, findP_cons_pos (fun kv => kv.1 == k) (k, v) _ (by simp)]
    rfl

theorem propGet_propSet_ne (ps : Props) (k k2 : String) (v : PropVal) (h : k ≠ k2) :
    propGet (propSet ps k v) k2 = propGet ps k2 := by
  unfold propSet
  by_cases hany : ps.any fun kv => kv.1 == k
  · rw [if_pos hany]
    unfold propGet
    clear hany
    induction ps with
    | nil => rfl
    | cons hd tl ih =>
      simp only [List.map_cons]
      by_cases h1 : hd.1 == k
      · rw [if_pos h1]
        rw [findP_cons_neg (fun kv => kv.1 == k2) (k, v) _ (by simp [h]),
          findP_cons_neg (fun kv => kv.1 == k2) hd _ ?hne]
        · exact ih
        case hne =>
          simp only [beq_iff_eq] at h1 ⊢
          rw [h1]
          exact h
      · rw [if_neg h1]
        by_cases h2 : hd.1 == k2
        · rw [findP_cons_pos (fun kv => kv.1 == k2) hd _ h2,
            findP_cons_pos (fun kv => kv.1 == k2) hd _ h2]
        · rw [findP_cons_neg (fun kv => kv.1 == k2) hd _ h2,
            findP_cons_neg (fun kv => kv.1 == k2) hd _ h2]
          exact ih
  · rw [if_neg hany]
    unfold propGet
    rw [List.find?_append]
    have hlast : (([(k, v)] : Props).find? fun kv => kv.1 == k2) = none := by
      rw [List.find?_eq_none]
      intro x hx hpx
      simp only [List.mem_singleton] at hx
      subst hx
      simp only [beq_iff_eq] at hpx
      exact h hpx
    rw [hlast]
    cases hfind : ps.find? fun kv => kv.1 == k2 <;> rfl

theorem propSet_propSet_same (ps : Props) (k : String) (v w : PropVal) :
    propSet (propSet ps k v) k w = propSet ps k w := by
  unfold propSet
  by_cases hany : ps.any fun kv => kv.1 == k
  · rw [if_pos hany]
    have hany2 : ((ps.map fun kv => if kv.1 == k then (k, v) else kv).any
        fun kv => kv.1 == k) = true := by
      rw [List.any_eq_true] at hany ⊢
      obtain ⟨x, hx, hpx⟩ := hany
      exact ⟨(k, v), List.mem_map.mpr ⟨x, hx, by rw [if_pos hpx]⟩, by simp⟩
    rw [if_pos hany2, if_pos hany, List.map_map]
    congr 1
    funext kv
    simp only [Function.comp]
    by_cases h1 : kv.1 == k
    · simp [h1]
    · rw [if_neg h1, if_neg h1]
  · rw [if_neg hany]
    have hany2 : ((ps ++ [(k, v)]).any fun kv => kv.1 == k) = true := by
      rw [List.any_eq_true]
      exact ⟨(k, v), List.mem_append_right _ (List.mem_singleton_self _), by simp⟩
    rw [if_pos hany2, if_neg hany]
    rw [List.map_append]
    congr 1
    · have hid : ∀ kv ∈ ps, (if kv.1 == k then (k, w) else kv) = kv := by
        intro kv hkv
        rw [if_neg]
        intro hpx
        exact hany (List.any_eq_true.mpr ⟨kv, hkv, hpx⟩)
      rw [List.map_congr_left hid]
      exact List.map_id ps
    · simp


theorem map_update_self (ps : Props) (k : String) (v : PropVal)
    (hkeys : (ps.map fun kv => kv.1).Nodup)
    (hfind : (ps.find? fun kv => kv.1 == k) = some (k, v)) :
    (ps.map fun kv => if kv.1 == k then (k, v) else kv) = ps := by
  induction ps with
  | nil => simp at hfind
  | cons hd tl ih =>
    simp only [List.map_cons, List.nodup_cons, List.mem_map] at hkeys
    obtain ⟨hnotin, htl⟩ := hkeys
    simp only [List.map_cons]
    by_cases h1 : hd.1 == k
    · rw [findP_cons_pos (fun kv => kv.1 == k) hd _ h1, Option.some.injEq] at hfind
      rw [if_pos h1, hfind]
      congr 1
      have hid : ∀ kv ∈ tl, (if kv.1 == k then (k, v) else kv) = kv := by
        intro kv hkv
        rw [if_neg]
        intro hpx
        apply hnotin
        refine ⟨kv, hkv, ?_⟩
        simp only [beq_iff_eq] at hpx h1
        rw [hpx, ← h1]
      rw [List.map_congr_left hid]
      exact List.map_id tl
    · rw [findP_cons_neg (fun kv => kv.1 == k) hd _ h1] at hfind
      rw [if_neg h1]
      congr 1
      exact ih htl hfind

theorem propSet_id_of_get (ps : Props) (k : String) (v : PropVal)
    (hkeys : (ps.map fun kv => kv.1).Nodup)
    (h : propGet ps k = some v) : propSet ps k v = ps := by
  unfold propGet at h
  cases hfind : ps.find? fun kv => kv.1 == k with
  | none => rw [hfind] at h; cases h
  | some kv0 =>
    rw [hfind] at h
    simp only [Option.map_some'] at h
    have hk0 : kv0.1 = k := by
      have hp := List.find?_some hfind
      simpa using hp
    have hkv0 : kv0 = (k, v) := by
      rcases kv0 with ⟨a, b⟩
      simp only at hk0 h
      rw [Option.some.injEq] at h
      rw [hk0, h]
    unfold propSet
    rw [if_pos (List.any_eq_true.mpr
      ⟨kv0, List.mem_of_find?_eq_some hfind, List.find?_some hfind⟩)]
    exact map_update_self ps k v hkeys (by rw [hfind, hkv0])

theorem propSet_keys_nodup (ps : Props) (k : String) (v : PropVal)
    (hkeys : (ps.map fun kv => kv.1).Nodup) :
    ((propSet ps k v).map fun kv => kv.1).Nodup := by
  unfold propSet
  by_cases hany : ps.any fun kv => kv.1 == k
  · rw [if_pos hany, List.map_map]
    have : ((fun kv : String × PropVal => kv.1) ∘
        fun kv => if kv.1 == k then (k, v) else kv) = fun kv => kv.1 := by
      funext kv
      simp only [Function.comp]
      by_cases h1 : kv.1 == k
      · rw [if_pos h1]
        simp only [beq_iff_eq] at h1
        rw [h1]
      · rw [if_neg h1]
    rw [this]
    exact hkeys
  · rw [if_neg hany, List.map_append]
    simp only [List.map_cons, List.map_nil]
    rw [List.nodup_append]
    refine ⟨hkeys, List.nodup_singleton _, ?_⟩
    intro a ha hb
    simp only [List.mem_singleton] at hb
    subst hb
    obtain ⟨kv, hkv, hkva⟩ := List.mem_map.mp ha
    apply hany
    exact List.any_eq_true.mpr ⟨kv, hkv, by simp [hkva]⟩

theorem mnNumber_propSet (ps : Props) (x : Int) (tl : List Int) :
    mnNumber (propSet ps "MN" (.vints (x :: tl))) = .ok x := by
  unfold mnNumber
  rw [propGet_propSet_self]

theorem colorPos_propSet_MN (ps : Props) (v : PropVal) :
    colorPos (propSet ps "MN" v) = colorPos ps := by
  unfold colorPos
  rw [propGet_propSet_ne ps "MN" "B" v (by decide),
    propGet_propSet_ne ps "MN" "W" v (by decide),
    propGet_propSet_ne ps "MN" "AW" v (by decide),
    propGet_propSet_ne ps "MN" "BW" v (by decide),
    propGet_propSet_ne ps "MN" "EW" v (by decide)]

theorem getmove_setMN (n : NodeGl) (mv : Move) (x : Int) (tl : List Int)
    (h : getmove n = .ok (some mv)) :
    getmove ⟨propSet n.props "MN" (.vints (x :: tl))⟩
      = .ok (some { mv with number := x }) := by
  unfold getmove at h ⊢
  rw [mnNumber_propSet, colorPos_propSet_MN]
  simp only []
  cases hmn : mnNumber n.props with
  | error e => rw [hmn] at h; simp at h
  | ok num =>
    rw [hmn] at h
    simp only [] at h
    cases hcp : colorPos n.props with
    | error e => rw [hcp] at h; simp at h
    | ok r =>
      rw [hcp] at h
      cases r with
      | none => simp at h
      | some cp =>
        simp only [] at h ⊢
        cases hl : (if cp.2.length = 0 then ['-', '-'] else cp.2) with
        | nil => rw [hl] at h; simp at h
        | cons c1 rest =>
          cases rest with
          | nil => rw [hl] at h; simp at h
          | cons c2 rest2 =>
            rw [hl] at h
            simp only [Except.ok.injEq, Option.some.injEq] at h ⊢
            rw [← h]


theorem bumpMN_eq (n : NodeGl) (j d : Int)
    (hmn : propGet n.props "MN" = some (.vints [j])) :
    bumpMN d n = ⟨propSet n.props "MN" (.vints [j + d])⟩ := by
  unfold bumpMN
  rw [hmn]

theorem chain_cast {a b : Int} {ms : List NodeGl} (h : MoveChain a ms) (hab : a = b) :
    MoveChain b ms := by
  subst hab
  exact h

theorem chain_bump {j : Int} {ms : List NodeGl} (h : MoveChain j ms) :
    MoveChain (j + 1) (ms.map (bumpMN 1)) := by
  induction h with
  | nil => exact .nil _
  | cons j node rest hkeys hmn hmv hrest ih =>
    rw [List.map_cons, bumpMN_eq node j 1 hmn]
    refine .cons _ _ _ ?_ ?_ ?_ ih
    · exact propSet_keys_nodup _ _ _ hkeys
    · exact propGet_propSet_self _ _ _
    · obtain ⟨mv, hmv1, hmv2⟩ := hmv
      exact ⟨{ mv with number := j + 1 }, getmove_setMN node mv (j + 1) [] hmv1, rfl⟩

theorem chain_take_drop {j : Int} {ms : List NodeGl} (h : MoveChain j ms) (t : Nat) :
    MoveChain j (ms.take t) ∧ MoveChain (j + t) (ms.drop t) := by
  induction h generalizing t with
  | nil =>
    constructor
    · rw [List.take_nil]
      exact .nil _
    · rw [List.drop_nil]
      exact .nil _
  | cons j node rest hkeys hmn hmv hrest ih =>
    cases t with
    | zero =>
      constructor
      · exact .nil _
      · exact chain_cast (.cons j node rest hkeys hmn hmv hrest) (by omega)
    | succ t =>
      obtain ⟨ih1, ih2⟩ := ih t
      constructor
      · exact .cons j node _ hkeys hmn hmv ih1
      · rw [List.drop_succ_cons]
        exact chain_cast ih2 (by push_cast; omega)

theorem chain_nums {j : Int} {ms : List NodeGl} (h : MoveChain j ms) :
    ∀ n ∈ ms, ∃ mv, getmove n = .ok (some mv) ∧ j ≤ mv.number ∧
      mv.number < j + ms.length := by
  induction h with
  | nil => intro n hn; simp at hn
  | cons j node rest hkeys hmn hmv hrest ih =>
    intro n hn
    rcases List.mem_cons.mp hn with rfl | hn
    · obtain ⟨mv, h1, h2⟩ := hmv
      exact ⟨mv, h1, by omega, by simp only [List.length_cons]; push_cast; omega⟩
    · obtain ⟨mv, h1, h2, h3⟩ := ih n hn
      refine ⟨mv, h1, by omega, ?_⟩
      simp only [List.length_cons]
      push_cast at h3 ⊢
      omega

theorem chain_last_mn {j : Int} {ms : List NodeGl} (h : MoveChain j ms) :
    ∀ n, ms.getLast? = some n → ∃ w tl2, propGet n.props "MN" = some (.vints (w :: tl2)) := by
  induction h with
  | nil => intro n hn; simp at hn
  | cons j node rest hkeys hmn hmv hrest ih =>
    intro n hn
    cases rest with
    | nil =>
      simp only [List.getLast?_singleton, Option.some.injEq] at hn
      subst hn
      exact ⟨j, [], hmn⟩
    | cons r2 rest2 =>
      rw [List.getLast?_cons_cons] at hn
      exact ih n hn


theorem insLoop_lt {j : Int} {ms : List NodeGl} (k : Int) (h : MoveChain j ms)
    (hlt : j + ms.length ≤ k) :
    ∀ i, insLoop k ms i = .ok (ms, none) := by
  induction h with
  | nil => intro i; rfl
  | cons j node rest hkeys hmn hmv hrest ih =>
    intro i
    unfold insLoop
    rw [hmn]
    simp only []
    rw [if_neg (by simp only [List.length_cons] at hlt; push_cast at hlt; omega),
      if_neg (by simp only [List.length_cons] at hlt; push_cast at hlt; omega)]
    rw [ih (by simp only [List.length_cons] at hlt; push_cast at hlt ⊢; omega) (i + 1)]
    rfl

theorem insLoop_ge {j : Int} {ms : List NodeGl} (k : Int) (h : MoveChain j ms)
    (hgt : k < j) :
    ∀ i, insLoop k ms i = .ok (ms.map (bumpMN 1), none) := by
  induction h with
  | nil => intro i; rfl
  | cons j node rest hkeys hmn hmv hrest ih =>
    intro i
    unfold insLoop
    rw [hmn]
    simp only []
    rw [if_pos (by omega), if_neg (by omega)]
    rw [ih (by omega) (i + 1)]
    rw [List.map_cons, bumpMN_eq node j 1 hmn]
    rfl

theorem insLoop_at {ms : List NodeGl} (k : Int) (h : MoveChain k ms) (hne : ms ≠ []) :
    ∀ i, insLoop k ms i = .ok (ms.map (bumpMN 1), some i) := by
  cases h with
  | nil => exact absurd rfl hne
  | cons j node rest hkeys hmn hmv hrest =>
    intro i
    unfold insLoop
    rw [hmn]
    simp only []
    rw [if_pos (by omega)]
    rw [insLoop_ge k hrest (by omega) (i + 1)]
    rw [List.map_cons, bumpMN_eq node k 1 hmn]
    rfl

theorem insLoop_concat2 (k : Int) (l1 l2 : List NodeGl) (a2 : List NodeGl)
    (x2 : Option Nat) :
    ∀ (a1 : List NodeGl) (i : Nat), insLoop k l1 i = .ok (a1, none) →
      insLoop k l2 (i + l1.length) = .ok (a2, x2) →
      insLoop k (l1 ++ l2) i = .ok (a1 ++ a2, x2) := by
  induction l1 with
  | nil =>
    intro a1 i h1 h2
    simp only [insLoop, Except.ok.injEq, Prod.mk.injEq] at h1
    obtain ⟨h1a, _⟩ := h1
    subst h1a
    simpa using h2
  | cons n rest ih =>
    intro a1 i h1 h2
    rw [List.cons_append]
    unfold insLoop at h1 ⊢
    cases hmn : propGet n.props "MN" with
    | none =>
      simp only [hmn] at h1 ⊢
      cases hrec : insLoop k rest (i + 1) with
      | error e =>
        simp only [hrec] at h1
        exact Except.noConfusion h1
      | ok pr =>
        obtain ⟨l2x, x2x⟩ := pr
        simp only [hrec, Except.ok.injEq, Prod.mk.injEq] at h1
        obtain ⟨h1a, h1b⟩ := h1
        have hx1 : x2x = none := h1b
        rw [hx1] at hrec
        have hrw := ih l2x (i + 1) hrec (by
          rw [show i + 1 + rest.length = i + (n :: rest).length by
            simp only [List.length_cons]; omega]
          exact h2)
        simp only [hrw]
        rw [← h1a]
        rfl
    | some pv =>
      cases pv with
      | vstrs l =>
        simp only [hmn] at h1
        exact Except.noConfusion h1
      | vints l =>
        cases l with
        | nil =>
          simp only [hmn] at h1
          exact Except.noConfusion h1
        | cons nb tl =>
          simp only [hmn] at h1 ⊢
          cases hrec : insLoop k rest (i + 1) with
          | error e =>
            simp only [hrec] at h1
            exact Except.noConfusion h1
          | ok pr =>
            obtain ⟨l2x, x2x⟩ := pr
            simp only [hrec, Except.ok.injEq, Prod.mk.injEq] at h1
            obtain ⟨h1a, h1b⟩ := h1
            have hx1 : x2x = none := by
              cases x2x with
              | none => rfl
              | some v => simp [Option.or] at h1b
            rw [hx1] at hrec
            have hhere : (if nb = k then some i else none) = none := by
              rw [hx1] at h1b
              cases hif : (if nb = k then some i else (none : Option Nat)) with
              | none => rfl
              | some v =>
                rw [hif] at h1b
                simp [Option.or] at h1b
            have hrw := ih l2x (i + 1) hrec (by
              rw [show i + 1 + rest.length = i + (n :: rest).length by
                simp only [List.length_cons]; omega]
              exact h2)
            simp only [hrw]
            rw [← h1a, hhere]
            simp

theorem prepareNew_ok (nodes : List NodeGl) (m : Move) (prev : NodeGl)
    (hlast : nodes.getLast? = some prev) (w : Int) (tl : List Int)
    (hprev : propGet prev.props "MN" = some (.vints (w :: tl))) :
    ∃ z : Int, prepareNew nodes m = .ok ⟨propSet
      [(colorKey m.color, .vstrs [[pyChr (m.x + 97), pyChr (m.y + 97)]])]
      "MN" (.vints [z])⟩ := by
  unfold prepareNew
  rw [hlast]
  simp only []
  by_cases hnum : 0 ≤ m.number
  · exact ⟨m.number, by rw [if_pos hnum]⟩
  · rw [if_neg hnum, hprev]
    simp only []
    cases m.color with
    | B => exact ⟨w + 1, rfl⟩
    | W => exact ⟨w + 1, rfl⟩
    | E => exact ⟨w, rfl⟩

theorem getmove_inserted (c : Color) (a b : Char) (k : Int)
    (hc : c = .B ∨ c = .W) :
    getmove ⟨propSet [(colorKey c, .vstrs [[a, b]])] "MN" (.vints [k])⟩ =
      .ok (some ⟨c, (a.toNat : Int) - 97, (b.toNat : Int) - 97, k⟩) := by
  rcases hc with rfl | rfl <;> rfl

theorem insLoop_skip_one (k nb : Int) (tl : List Int) (n : NodeGl)
    (hmn : propGet n.props "MN" = some (.vints (nb :: tl)))
    (h1 : ¬ k ≤ nb) (h2 : nb ≠ k) :
    ∀ i, insLoop k [n] i = .ok ([n], none) := by
  intro i
  unfold insLoop
  rw [hmn]
  simp only []
  rw [if_neg h1, if_neg h2]
  rfl

theorem eraseIdx_append_len {α : Type} (l1 l2 : List α) (x : α) :
    (l1 ++ x :: l2).eraseIdx l1.length = l1 ++ l2 := by
  induction l1 with
  | nil => rfl
  | cons a rest ih =>
    simp only [List.cons_append, List.length_cons, List.eraseIdx_cons_succ, ih]

theorem delLoop_concat_skip (t : Int) (pre rest : List NodeGl)
    (hpre : ∀ n ∈ pre, getmove n = .ok none ∨
      ∃ mv, getmove n = .ok (some mv) ∧ mv.number ≠ t) :
    ∀ i l ix, delLoop t rest (i + pre.length) false = .ok (l, ix) →
      delLoop t (pre ++ rest) i false = .ok (pre ++ l, ix) := by
  induction pre with
  | nil =>
    intro i l ix h
    simpa using h
  | cons n ns ih =>
    intro i l ix h
    simp only [List.cons_append]
    unfold delLoop
    rw [if_neg (by simp)]
    have hrec : delLoop t (ns ++ rest) (i + 1) false = .ok (ns ++ l, ix) := by
      apply ih (fun q hq => hpre q (List.mem_cons_of_mem _ hq)) (i + 1) l ix
      rw [show i + 1 + ns.length = i + (n :: ns).length by
        simp only [List.length_cons]; omega]
      exact h
    rcases hpre n (List.mem_cons_self _ _) with hn | ⟨mv, hn, hne⟩
    · rw [hn]
      simp only []
      rw [hrec]
    · rw [hn]
      simp only []
      rw [if_neg hne, hrec]

theorem delLoop_decr_unbump (t : Int) {j : Int} {ns : List NodeGl}
    (h : MoveChain j ns) :
    ∀ i, delLoop t (ns.map (bumpMN 1)) i true = .ok (ns, none) := by
  induction h with
  | nil =>
    intro i
    rfl
  | cons j node rest hkeys hmn hmv hrest ih =>
    intro i
    rw [List.map_cons, bumpMN_eq node j 1 hmn]
    unfold delLoop
    rw [if_pos rfl]
    simp only []
    rw [propGet_propSet_self]
    simp only []
    rw [ih (i + 1)]
    simp only []
    rw [propSet_propSet_same]
    rw [show j + 1 - 1 = j by omega]
    rw [propSet_id_of_get node.props "MN" (.vints [j]) hkeys hmn]

theorem deleteK_restores (k : Int) (pre post : List NodeGl) (nn : NodeGl)
    (m2 : Move) (j : Int) (mf : Bool)
    (hpre : ∀ n ∈ pre, getmove n = .ok none ∨
      ∃ mv, getmove n = .ok (some mv) ∧ mv.number ≠ k)
    (hnn : ∃ mv, getmove nn = .ok (some mv) ∧ mv.number = k)
    (hpost : MoveChain j post)
    (hm2 : m2.number = k) :
    deleteK ⟨pre ++ [nn] ++ post.map (bumpMN 1), mf⟩ m2 = .ok ⟨pre ++ post, true⟩ := by
  obtain ⟨mv, hmv, hmvn⟩ := hnn
  have hmid : delLoop k (nn :: post.map (bumpMN 1)) pre.length false
      = .ok (nn :: post, some pre.length) := by
    unfold delLoop
    rw [if_neg (by simp)]
    rw [hmv]
    simp only []
    rw [if_pos hmvn]
    rw [delLoop_decr_unbump k hpost (pre.length + 1)]
  have hfull : delLoop k (pre ++ nn :: post.map (bumpMN 1)) 0 false
      = .ok (pre ++ nn :: post, some pre.length) := by
    apply delLoop_concat_skip k pre _ hpre 0 _ _
    simpa using hmid
  unfold deleteK
  simp only []
  rw [hm2]
  rw [show pre ++ [nn] ++ post.map (bumpMN 1) = pre ++ nn :: post.map (bumpMN 1) by
    simp]
  rw [hfull]
  simp only []
  rw [eraseIdx_append_len pre post nn]

/-- C7: insert-then-delete round trip.  For a record `root :: ms` whose
root carries `MN = [0]` and derives no move, whose tail `ms` is an N-move
chain numbered `1..N`, for every position `k` in `[1, N+1]` and every move
with a B or W color: `insert(move, k)` succeeds, splicing the prepared
node (numbered `k`) after the nodes numbered below `k` and bumping every
later move number by one; when `k = N+1` (the tail number plus one) this
degenerates to appending the new node at the tail; and a subsequent
`delete` of the inserted move (any move numbered `k`) restores exactly
the original node list - the original N move numbers, in the original
order. -/
theorem insert_delete_roundtrip (root : NodeGl) (ms : List NodeGl) (mf : Bool)
    (m : Move) (k : Int)
    (hrmn : propGet root.props "MN" = some (.vints [0]))
    (hrmv : getmove root = .ok none)
    (hchain : MoveChain 1 ms)
    (hcol : m.color = .B ∨ m.color = .W)
    (hk1 : 1 ≤ k) (hk2 : k ≤ (ms.length : Int) + 1) :
    insertK ⟨root :: ms, mf⟩ m k =
      .ok ⟨(root :: ms.take (k - 1).toNat) ++ [insertedNode m k]
             ++ (ms.drop (k - 1).toNat).map (bumpMN 1), true⟩
    ∧ (k = (ms.length : Int) + 1 →
        (root :: ms.take (k - 1).toNat) ++ [insertedNode m k]
          ++ (ms.drop (k - 1).toNat).map (bumpMN 1) = (root :: ms) ++ [insertedNode m k])
    ∧ ∀ m2 : Move, m2.number = k →
        deleteK ⟨(root :: ms.take (k - 1).toNat) ++ [insertedNode m k]
                   ++ (ms.drop (k - 1).toNat).map (bumpMN 1), true⟩ m2
          = .ok ⟨root :: ms, true⟩ := by
  have htk : (((k - 1).toNat : Nat) : Int) = k - 1 := Int.toNat_of_nonneg (by omega)
  have htle : (k - 1).toNat ≤ ms.length := by omega
  obtain ⟨chTake, chDrop⟩ := chain_take_drop hchain (k - 1).toNat
  have hTlen : (ms.take (k - 1).toNat).length = (k - 1).toNat := by
    rw [List.length_take]
    omega
  have hprep : ∃ z : Int, prepareNew (root :: ms) m = .ok ⟨propSet
      [(colorKey m.color, .vstrs [[pyChr (m.x + 97), pyChr (m.y + 97)]])]
      "MN" (.vints [z])⟩ := by
    cases hms : ms with
    | nil => exact prepareNew_ok [root] m root rfl 0 [] hrmn
    | cons a as =>
      obtain ⟨p, hp⟩ : ∃ p, (a :: as).getLast? = some p := by
        cases hgl : (a :: as).getLast? with
        | none => rw [List.getLast?_eq_none_iff] at hgl; cases hgl
        | some p => exact ⟨p, rfl⟩
      obtain ⟨w, tl2, hw⟩ := chain_last_mn (hms ▸ hchain) p hp
      exact prepareNew_ok (root :: a :: as) m p
        (by rw [List.getLast?_cons_cons]; exact hp) w tl2 hw
  obtain ⟨z, hprep⟩ := hprep
  have hforce : numberForce ⟨propSet
      [(colorKey m.color, .vstrs [[pyChr (m.x + 97), pyChr (m.y + 97)]])]
      "MN" (.vints [z])⟩ k = insertedNode m k := by
    rw [show numberForce ⟨propSet
        [(colorKey m.color, .vstrs [[pyChr (m.x + 97), pyChr (m.y + 97)]])]
        "MN" (.vints [z])⟩ k = ⟨propSet (propSet
        [(colorKey m.color, .vstrs [[pyChr (m.x + 97), pyChr (m.y + 97)]])]
        "MN" (.vints [z])) "MN" (.vints [k])⟩ from rfl, propSet_propSet_same]
    rfl
  have hroot1 : insLoop k [root] 0 = .ok ([root], none) :=
    insLoop_skip_one k 0 [] root hrmn (by omega) (by omega) 0
  have hins : insertK ⟨root :: ms, mf⟩ m k =
      .ok ⟨(root :: ms.take (k - 1).toNat) ++ [insertedNode m k]
             ++ (ms.drop (k - 1).toNat).map (bumpMN 1), true⟩ := by
    unfold insertK
    rw [hprep]
    simp only []
    rw [if_pos (show (0 : Int) ≤ k by omega), hforce]
    by_cases hkN : k = (ms.length : Int) + 1
    · have htn : (k - 1).toNat = ms.length := by omega
      have h2 : insLoop k ms 1 = .ok (ms, none) :=
        insLoop_lt k hchain (by omega) 1
      have h3 : insLoop k (root :: ms) 0 = .ok (root :: ms, none) := by
        have h4 := insLoop_concat2 k [root] ms ms none [root] 0 hroot1
          (by simpa using h2)
        simpa using h4
      rw [h3]
      simp only []
      rw [if_pos (show ((((root :: ms).length : Nat) : Int) - 1 = k - 1) by
        simp only [List.length_cons]; push_cast; omega)]
      rw [htn, List.take_length, List.drop_length]
      simp
    · have hne : ms.drop (k - 1).toNat ≠ [] := by
        intro hnil
        have hnil2 := congrArg List.length hnil
        rw [List.length_drop] at hnil2
        simp only [List.length_nil] at hnil2
        omega
      have chDropK : MoveChain k (ms.drop (k - 1).toNat) :=
        chain_cast chDrop (by omega)
      have ha : insLoop k (ms.take (k - 1).toNat) 1 =
          .ok (ms.take (k - 1).toNat, none) :=
        insLoop_lt k chTake (by rw [hTlen]; omega) 1
      have hb := insLoop_at k chDropK hne (1 + (ms.take (k - 1).toNat).length)
      have hc2 := insLoop_concat2 k (ms.take (k - 1).toNat) (ms.drop (k - 1).toNat)
        ((ms.drop (k - 1).toNat).map (bumpMN 1))
        (some (1 + (ms.take (k - 1).toNat).length)) (ms.take (k - 1).toNat) 1 ha hb
      rw [List.take_append_drop] at hc2
      have hd := insLoop_concat2 k [root] ms
        (ms.take (k - 1).toNat ++ (ms.drop (k - 1).toNat).map (bumpMN 1))
        (some (1 + (ms.take (k - 1).toNat).length)) [root] 0 hroot1
        (by simpa using hc2)
      have hd2 : insLoop k (root :: ms) 0 =
          .ok (root :: (ms.take (k - 1).toNat ++ (ms.drop (k - 1).toNat).map (bumpMN 1)),
            some (1 + (ms.take (k - 1).toNat).length)) := by
        simpa using hd
      rw [hd2]
      simp only []
      rw [show 1 + (ms.take (k - 1).toNat).length = (ms.take (k - 1).toNat).length + 1
        by omega]
      rw [List.take_succ_cons, List.take_left, List.drop_succ_cons, List.drop_left]
  refine ⟨hins, ?_, ?_⟩
  · intro hkN
    have htn : (k - 1).toNat = ms.length := by omega
    rw [htn, List.take_length, List.drop_length]
    simp
  · intro m2 hm2
    have hout := deleteK_restores k (root :: ms.take (k - 1).toNat)
      (ms.drop (k - 1).toNat) (insertedNode m k) m2 (1 + ((k - 1).toNat : Int)) true
      (by
        intro n hn
        rcases List.mem_cons.mp hn with rfl | hn2
        · exact Or.inl hrmv
        · obtain ⟨mv, h1, h2, h3⟩ := chain_nums chTake n hn2
          refine Or.inr ⟨mv, h1, ?_⟩
          rw [hTlen] at h3
          omega)
      (⟨⟨m.color, ((pyChr (m.x + 97)).toNat : Int) - 97,
          ((pyChr (m.y + 97)).toNat : Int) - 97, k⟩,
        getmove_inserted m.color (pyChr (m.x + 97)) (pyChr (m.y + 97)) k hcol, rfl⟩)
      chDrop hm2
    rw [show (root :: ms.take (k - 1).toNat) ++ ms.drop (k - 1).toNat = root :: ms by
      rw [List.cons_append, List.take_append_drop]] at hout
    exact hout

/-- Witness for C7 on the two-move record: insert Black e15 at position 2,
then delete move number 2; the original record comes back. -/
theorem insert_delete_roundtrip_witness :
    ∃ kf1 : Kifu, insertK kfTwo ⟨.B, 4, 4, -1⟩ 2 = .ok kf1 ∧
      deleteK kf1 ⟨.W, 9, 9, 2⟩ = .ok ⟨kfTwo.nodes, true⟩ := by
  have h := insert_delete_roundtrip rootNode
    [⟨[("B", .vstrs [['c', 'c']]), ("MN", .vints [1])]⟩,
     ⟨[("W", .vstrs [['d', 'd']]), ("MN", .vints [2])]⟩] false ⟨.B, 4, 4, -1⟩ 2
    rfl rfl
    (MoveChain.cons 1 _ _ (by decide) rfl ⟨⟨.B, 2, 2, 1⟩, rfl, rfl⟩
      (MoveChain.cons 2 _ _ (by decide) rfl ⟨⟨.W, 3, 3, 2⟩, rfl, rfl⟩
        (MoveChain.nil 3)))
    (Or.inl rfl) (by decide) (by decide)
  exact ⟨_, h.1, h.2.2 ⟨.W, 9, 9, 2⟩ rfl⟩

end Golib
